import Mathlib

/-!
# step-41: primal-dual active-set loop for the obstacle problem

A shallow embedding of `examples/step-41/step-41.cc` (class `Step4<2>`).

Modelling conventions.

* `double` values are exact rationals (`ℚ`); every comparison of the source is
  the same comparison on `ℚ`.
* A `TrilinosWrappers::Vector` of size `n_dofs` is a function `Nat → ℚ`; all
  vectors of the program have the size fixed by `setup_system`, and every
  operation of the program works in place, so the size is carried by the
  discretization (`Env.n_dofs`) and not by the vector.
* A `TrilinosWrappers::SparseMatrix` is a function `Nat → Nat → ℚ`.
* The member functions of `Step4` are state transformers on the record
  `Step4` of its member variables; `std::cout` and the files written by
  `output_results` are two more components of that record.
* Mesh, quadrature, cell assembly and the CG solver are library collaborators
  and are collected in `Env`, together with the two function objects for the
  obstacle and the boundary data; `Obstacle.value` and `BoundaryValues.value`
  are the ones of the source.
* `resid.l2_norm () < 1e-10` is tested on squares, `resid_sq < (1e-10)²`.
-/

namespace Step41

/-! ## Data model -/

/-- `Point<2>`: the pair of coordinates, `p(0)` is the first component. -/
abbrev Point := ℚ × ℚ

/-- `TrilinosWrappers::Vector` with `n_dofs` entries. -/
abbrev Vector := Nat → ℚ

/-- `TrilinosWrappers::SparseMatrix` with `n_dofs` rows and columns. -/
abbrev SparseMatrix := Nat → Nat → ℚ

/-- Assignment `v (i) = x` to one entry of a vector. -/
def Vector.set (v : Vector) (i : Nat) (x : ℚ) : Vector :=
  fun k => if k = i then x else v k

/-- `GeometryInfo<2>::vertices_per_cell`. -/
def vertices_per_cell : Nat := 4

/-- What `projection_active_set` reads from an active cell iterator:
`cell->vertex_dof_index (v,0)` and `cell->vertex (v)`. -/
structure Cell where
  vertex_dof_index : Nat → Nat
  vertex : Nat → Point

/-- `RightHandSide<dim>::value`: the constant `-10`. -/
def RightHandSide.value (_p : Point) : ℚ := -10

/-- `BoundaryValues<dim>::value`: the constant `0`. -/
def BoundaryValues.value (_p : Point) : ℚ := 0

/-- `Obstacle<dim>::value`: four steps in the first coordinate. -/
def Obstacle.value (p : Point) : ℚ :=
  if p.1 < -1/2 then -1/5
  else if p.1 ≥ -1/2 ∧ p.1 < 0 then -2/5
  else if p.1 ≥ 0 ∧ p.1 < 1/2 then -3/5
  else -4/5

/-- Modelled from the spec: the class `ConstraintMatrix` of the library, which
is not part of the example file. A constraint set is a set of pairs (unknown
index, prescribed value) in which each index appears at most once (spec §3,
§4.1); the program only ever stores lines without entries, so a line is its
inhomogeneity. `lines k = some v` says that unknown `k` is fixed to `v`. -/
structure ConstraintMatrix where
  lines : Nat → Option ℚ

namespace ConstraintMatrix

/-- Modelled from the spec: `constraints.clear ()` of the library; no line is
left. -/
def clear (_c : ConstraintMatrix) : ConstraintMatrix := ⟨fun _ => none⟩

/-- Modelled from the spec: `constraints.is_constrained (i)` of the library;
unknown `i` has a line. -/
def is_constrained (c : ConstraintMatrix) (i : Nat) : Bool := (c.lines i).isSome

/-- Modelled from the spec: `constraints.add_line (i)` of the library; a new
line has inhomogeneity `0`, a line that exists already is left alone. -/
def add_line (c : ConstraintMatrix) (i : Nat) : ConstraintMatrix :=
  if c.is_constrained i then c
  else ⟨fun k => if k = i then some 0 else c.lines k⟩

/-- Modelled from the spec: `constraints.set_inhomogeneity (i, value)` of the
library; the existing line `i` gets the prescribed value `value`. -/
def set_inhomogeneity (c : ConstraintMatrix) (i : Nat) (value : ℚ) : ConstraintMatrix :=
  if c.is_constrained i then ⟨fun k => if k = i then some value else c.lines k⟩
  else c

/-- Modelled from the spec: `constraints.close ()` of the library; finalizing
leaves the set of lines as it is (spec §4.1). -/
def close (c : ConstraintMatrix) : ConstraintMatrix := c

/-- Modelled from the spec: `constraints.distribute (vec)` of the library;
every constrained entry takes its prescribed value (spec §4.4). -/
def distribute (c : ConstraintMatrix) (vec : Vector) : Vector :=
  fun k => match c.lines k with
    | some value => value
    | none => vec k

end ConstraintMatrix

/-- One line written to `std::cout`; the constructors are the output
statements of the source, with the values they print. The residual line
prints `resid = sqrt resid_sq`; it is recorded by its square. -/
inductive Line where
  | solving_problem (dim : Nat)
  | number_of_active_cells (n : Nat)
  | total_number_of_cells (n : Nat)
  | number_of_degrees_of_freedom (n : Nat)
  | update_active_set
  | assemble_system
  | solve_system
  | initial_error (initial_value : ℚ)
  | cg_iterations (last_step : Nat) (last_value : ℚ)
  | create_output
  | residuum (i : Nat) (resid_sq : ℚ)
  deriving DecidableEq

/-- The text of an output line without the numbers printed in it. -/
def Line.label : Line → String
  | .solving_problem _ => "Solving problem in ... space dimensions."
  | .number_of_active_cells _ => "   Number of active cells: "
  | .total_number_of_cells _ => "   Total number of cells: "
  | .number_of_degrees_of_freedom _ => "   Number of degrees of freedom: "
  | .update_active_set => "Update Active Set:"
  | .assemble_system => "Assemble System:"
  | .solve_system => "Solve System:"
  | .initial_error _ => "Initial error: "
  | .cg_iterations _ _ => " CG iterations needed to obtain convergence with an error: "
  | .create_output => "Create Output:"
  | .residuum _ _ => ". Residuum = "

/-- The data sets `output_results` attaches to a file (`title + ".vtk"` and
`title + ".gp"` hold the same three vectors). -/
structure OutputFile where
  title : String
  Displacement : Vector
  Residual : Vector
  ActiveSet : Vector

/-- The library collaborators of the program: the refined triangulation with
its enumeration of unknowns, the cell loop of the assembly and the
preconditioned CG solver. -/
structure Env where
  /-- The active cells in the order of `dof_handler.begin_active ()`. -/
  cells : List Cell
  /-- `triangulation.n_cells ()`. -/
  n_cells : Nat
  /-- `dof_handler.n_dofs ()`. -/
  n_dofs : Nat
  /-- The support point of each unknown (for `FE_Q (1)`, its vertex). -/
  support_point : Nat → Point
  /-- The unknowns on the part of the boundary with indicator `0`. -/
  boundary_dofs : List Nat
  /-- The function object used as obstacle (`Obstacle<dim>` in the source). -/
  obstacle : Point → ℚ
  /-- The function object of the Dirichlet data (`BoundaryValues<dim>`). -/
  boundary_values : Point → ℚ
  /-- The sum over all cells that `distribute_local_to_global` adds to the
  global matrix under a given constraint set. -/
  stiffness : ConstraintMatrix → SparseMatrix
  /-- The sum over all cells that `distribute_local_to_global` adds to the
  global right hand side under a given constraint set. -/
  load : ConstraintMatrix → Vector
  /-- `solver.solve (matrix, x, rhs, precondition)`: the vector left in `x`,
  as a function of the matrix, the start vector and the right hand side. -/
  cg : SparseMatrix → Vector → Vector → Vector
  /-- What `reduction_control` reports after that call: `initial_value ()`,
  `last_step ()` and `last_value ()`. -/
  reduction_control : SparseMatrix → Vector → Vector → ℚ × Nat × ℚ

/-- The member variables of `Step4<2>`, with the console and the files
written so far. -/
structure Step4 where
  constraints : ConstraintMatrix
  system_matrix : SparseMatrix
  system_matrix_complete : SparseMatrix
  solution : Vector
  tmp_solution : Vector
  system_rhs : Vector
  system_rhs_complete : Vector
  resid_vector : Vector
  active_set : Vector
  cout : List Line
  files : List OutputFile

/-! ## `Step4::projection_active_set` -/

/-- Modelled from the spec: `VectorTools::interpolate_boundary_values
(dof_handler, 0, BoundaryValues<dim>(), constraints)`, a library function
that is not part of the example file. Every boundary unknown gets the
constraint (index, boundary value at its support point); spec §4.1: boundary
constraints are applied last and overwrite a line that exists already. -/
def interpolate_boundary_values (env : Env) (c : ConstraintMatrix) : ConstraintMatrix :=
  env.boundary_dofs.foldl
    (fun c k => (c.add_line k).set_inhomogeneity k (env.boundary_values (env.support_point k))) c

/-- The body of the loop over the vertices of one cell (source lines 682-692). -/
def visit_vertex (env : Env) (cell : Cell) (st : Step4) (v : Nat) : Step4 :=
  let index_x := cell.vertex_dof_index v
  let point : Point := ((cell.vertex v).1, (cell.vertex v).2)
  let obstacle_value := env.obstacle point
  if st.solution index_x ≤ obstacle_value ∧ st.resid_vector index_x ≥ -(1 / 10 ^ 15) then
    { st with
      constraints := (st.constraints.add_line index_x).set_inhomogeneity index_x obstacle_value
      solution := st.solution.set index_x 0
      active_set := st.active_set.set index_x 1 }
  else st

/-- The loop over the vertices of one cell. -/
def visit_cell (env : Env) (st : Step4) (cell : Cell) : Step4 :=
  (List.range vertices_per_cell).foldl (visit_vertex env cell) st

/-- The state after the loop over all cells (source lines 677-693), before
the boundary values are interpolated. -/
def active_set_scan (env : Env) (st : Step4) : Step4 :=
  env.cells.foldl (visit_cell env)
    { st with constraints := st.constraints.clear, active_set := fun _ => 0 }

/-- `Step4<dim>::projection_active_set`. -/
def projection_active_set (env : Env) (st : Step4) : Step4 :=
  let st1 := active_set_scan env st
  let st2 := { st1 with constraints := interpolate_boundary_values env st1.constraints }
  { st2 with constraints := st2.constraints.close }

/-! ## The other member functions -/

/-- The members of a freshly constructed `Step4<2>` object: nothing is
allocated and nothing has been written yet. -/
def Step4.init : Step4 where
  constraints := ⟨fun _ => none⟩
  system_matrix := fun _ _ => 0
  system_matrix_complete := fun _ _ => 0
  solution := fun _ => 0
  tmp_solution := fun _ => 0
  system_rhs := fun _ => 0
  system_rhs_complete := fun _ => 0
  resid_vector := fun _ => 0
  active_set := fun _ => 0
  cout := []
  files := []

/-- `std::cout << ... << std::endl` for one line. -/
def Step4.print (st : Step4) (l : Line) : Step4 :=
  { st with cout := st.cout ++ [l] }

/-- `Step4<dim>::make_grid`: the triangulation itself is `env`; the function
reports its size. -/
def make_grid (env : Env) (st : Step4) : Step4 :=
  (st.print (.number_of_active_cells env.cells.length)).print
    (.total_number_of_cells env.n_cells)

/-- `Step4<dim>::setup_system`: reports the number of unknowns and
reinitialises both matrices and all six vectors to zero. -/
def setup_system (env : Env) (st : Step4) : Step4 :=
  { st.print (.number_of_degrees_of_freedom env.n_dofs) with
    system_matrix := fun _ _ => 0
    system_matrix_complete := fun _ _ => 0
    solution := fun _ => 0
    tmp_solution := fun _ => 0
    system_rhs := fun _ => 0
    system_rhs_complete := fun _ => 0
    resid_vector := fun _ => 0
    active_set := fun _ => 0 }

/-- `Step4<dim>::assemble_system`: the cell loop adds the local
contributions, with the current constraints eliminated, to `system_matrix`
and `system_rhs`. -/
def assemble_system (env : Env) (st : Step4) : Step4 :=
  { st with
    system_matrix := fun i j => st.system_matrix i j + env.stiffness st.constraints i j
    system_rhs := fun i => st.system_rhs i + env.load st.constraints i }

/-- `Step4<dim>::solve`: CG started from the current `solution`, the two
report lines, then `constraints.distribute (solution)`. -/
def solve (env : Env) (st : Step4) : Step4 :=
  let x := env.cg st.system_matrix st.solution st.system_rhs
  let rc := env.reduction_control st.system_matrix st.solution st.system_rhs
  let st1 := { st with solution := x }
  let st2 := (st1.print (.initial_error rc.1)).print (.cg_iterations rc.2.1 rc.2.2)
  { st2 with solution := st2.constraints.distribute st2.solution }

/-- `Step4<dim>::output_results (title)`: writes `tmp_solution`,
`resid_vector` and `active_set`. -/
def output_results (title : String) (st : Step4) : Step4 :=
  { st with files := st.files ++ [⟨title, st.tmp_solution, st.resid_vector, st.active_set⟩] }

/-- Modelled from the spec: `matrix.vmult_add (dst, src)` of the library, the
update `dst += matrix * src` that makes the residual `A_full u - b_full`
(spec §4.2, step 5). -/
def SparseMatrix.vmult_add (A : SparseMatrix) (n : Nat) (dst src : Vector) : Vector :=
  fun i => dst i + ∑ j in Finset.range n, A i j * src j

/-- The body of the clamp loop (source lines 842-843). -/
def clamp_entry (r : Vector) (k : Nat) : Vector :=
  if r k > 0 then r.set k 0 else r

/-- The residual pass of `run` (source lines 837-843). -/
def residual_update (env : Env) (st : Step4) : Step4 :=
  let r0 : Vector := fun _ => 0
  let r1 : Vector := fun k => r0 k - st.system_rhs_complete k
  let r2 : Vector := st.system_matrix_complete.vmult_add env.n_dofs r1 st.solution
  { st with resid_vector := (List.range env.n_dofs).foldl clamp_entry r2 }

/-- Modelled from the spec: the square of `v.l2_norm ()` of the library, the
Euclidean norm of a vector with `n` entries (spec §4.2, step 7). -/
def l2_norm_sq (n : Nat) (v : Vector) : ℚ :=
  ∑ k in Finset.range n, v k ^ 2

/-- The test `resid < 1e-10` of the source, for `resid = sqrt resid_sq`: both
sides are nonnegative, so the squares are compared. -/
def below_tolerance (resid_sq : ℚ) : Prop :=
  resid_sq < (1 / 10 ^ 10) ^ 2

instance (resid_sq : ℚ) : Decidable (below_tolerance resid_sq) := by
  unfold below_tolerance
  infer_instance

/-- The first part of the body of the `for` loop of `run` (source lines
822-835): assemble under the current constraints, solve, keep a copy of the
solution. -/
def solve_phase (env : Env) (st : Step4) : Step4 :=
  let st := st.print .assemble_system
  let st := { st with system_matrix := fun _ _ => 0 }
  let st := { st with system_rhs := fun _ => 0 }
  let st := assemble_system env st
  let st := st.print .solve_system
  let st := solve env st
  { st with tmp_solution := st.solution }

/-- The last part of the body of the `for` loop of `run` for the loop counter
`i` (source lines 845-855), up to the convergence test. -/
def update_phase (env : Env) (i : Nat) (st : Step4) : Step4 :=
  let st := st.print .update_active_set
  let st := projection_active_set env st
  let st := st.print .create_output
  let st := output_results ("output_" ++ toString i) st
  st.print (.residuum i (l2_norm_sq env.n_dofs st.resid_vector))

/-- The body of the `for` loop of `run` for the loop counter `i` (source lines
822-855), up to the convergence test. -/
def outer_iteration (env : Env) (i : Nat) (st : Step4) : Step4 :=
  update_phase env i (residual_update env (solve_phase env st))

/-- The `for` loop of `run`: `remaining` is `solution.size () - i`; the loop
ends when nothing remains or by `break`. -/
def outer_loop (env : Env) : Nat → Nat → Step4 → Step4
  | 0, _, st => st
  | remaining + 1, i, st =>
    let st1 := outer_iteration env i st
    if below_tolerance (l2_norm_sq env.n_dofs st1.resid_vector) then st1
    else outer_loop env remaining (i + 1) st1

/-- The state of `run` after the reference system has been assembled and
copied (source lines 792-807). The local copy `constraints_complete` of the
constraint set is never read and is left out. -/
def reference_assembly (env : Env) : Step4 :=
  let st := Step4.init.print (.solving_problem 2)
  let st := make_grid env st
  let st := setup_system env st
  let st := { st with constraints := st.constraints.clear }
  let st := { st with constraints := interpolate_boundary_values env st.constraints }
  let st := { st with constraints := st.constraints.close }
  let st := assemble_system env st
  let st := { st with system_matrix_complete := st.system_matrix }
  { st with system_rhs_complete := st.system_rhs }

/-- The state of `run` when it calls `projection_active_set` for the first
time (source lines 809-811 after the reference assembly). -/
def seed_entry (env : Env) : Step4 :=
  let st := (reference_assembly env).print .update_active_set
  let st := { st with solution := fun _ => 0 }
  { st with resid_vector := fun _ => 0 }

/-- The state of `run` when it enters the `for` loop. -/
def seed (env : Env) : Step4 :=
  projection_active_set env (seed_entry env)

/-- `Step4<dim>::run`: the members when `run` returns. -/
def run (env : Env) : Step4 :=
  outer_loop env env.n_dofs 0 (seed env)

/-- The constraint set that holds the boundary values and nothing else. -/
def boundary_constraints (env : Env) : ConstraintMatrix :=
  interpolate_boundary_values env ⟨fun _ => none⟩

/-- The state in which the `for` loop of `run` begins the pass with loop
counter `i`, when it gets that far: the seed state followed by the passes
`0, ..., i - 1`. -/
def loop_state (env : Env) : Nat → Step4
  | 0 => seed env
  | i + 1 => outer_iteration env i (loop_state env i)

/-- The lines `Solve System:` of the console. -/
def Line.is_solve : Line → Bool
  | .solve_system => true
  | _ => false

/-- The lines `Assemble System:` of the console. -/
def Line.is_assemble : Line → Bool
  | .assemble_system => true
  | _ => false

/-- The lines that `run` and `solve` write in one pass of the outer loop that
starts in state `st` with loop counter `i`. -/
def pass_lines (env : Env) (i : Nat) (st : Step4) : List Line :=
  [.assemble_system, .solve_system,
    .initial_error (env.reduction_control
      (fun a b => 0 + env.stiffness st.constraints a b) st.solution
      (fun a => 0 + env.load st.constraints a)).1,
    .cg_iterations
      (env.reduction_control
        (fun a b => 0 + env.stiffness st.constraints a b) st.solution
        (fun a => 0 + env.load st.constraints a)).2.1
      (env.reduction_control
        (fun a b => 0 + env.stiffness st.constraints a b) st.solution
        (fun a => 0 + env.load st.constraints a)).2.2,
    .update_active_set, .create_output,
    .residuum i (l2_norm_sq env.n_dofs (outer_iteration env i st).resid_vector)]

/-- The texts of the lines of one pass of the outer loop. -/
def pass_labels : List String :=
  ["Assemble System:", "Solve System:", "Initial error: ",
    " CG iterations needed to obtain convergence with an error: ",
    "Update Active Set:", "Create Output:", ". Residuum = "]

/-! ## Well-formed discretizations and the vocabulary of the statements -/

/-- The enumeration of unknowns is that of a continuous `FE_Q (1)` space: a
vertex has the same coordinates in every cell it belongs to, namely the
support point of its unknown, every vertex unknown is one of the `n_dofs`
unknowns, and every unknown is the vertex of some cell. -/
def Env.Conforming (env : Env) : Prop :=
  (∀ cell ∈ env.cells, ∀ v < vertices_per_cell,
      cell.vertex v = env.support_point (cell.vertex_dof_index v)
        ∧ cell.vertex_dof_index v < env.n_dofs)
    ∧ ∀ k < env.n_dofs, ∃ cell ∈ env.cells, ∃ v < vertices_per_cell,
        cell.vertex_dof_index v = k

/-- The complementarity test of unknown `k` on the vectors of state `st`:
`u(k) ≤ ψ(x_k)` and `r(k) ≥ -1e-15`. -/
def passes (env : Env) (st : Step4) (k : Nat) : Prop :=
  st.solution k ≤ env.obstacle (env.support_point k) ∧ st.resid_vector k ≥ -(1 / 10 ^ 15)

/-- Unknown `k` has not been marked since the scan of entry state `st` began. -/
def Untouched (st s : Step4) (k : Nat) : Prop :=
  s.active_set k = 0 ∧ s.solution k = st.solution k ∧ s.constraints.lines k = none

/-- Unknown `k` passed the test on entry state `st` and has been marked. -/
def Marked (env : Env) (st s : Step4) (k : Nat) : Prop :=
  passes env st k ∧ s.active_set k = 1 ∧ s.solution k = 0
    ∧ s.constraints.lines k = some (env.obstacle (env.support_point k))

/-- What every intermediate state `s` of the scan started on `st` satisfies. -/
def ScanInv (env : Env) (st s : Step4) : Prop :=
  s.resid_vector = st.resid_vector ∧ ∀ k, Untouched st s k ∨ Marked env st s k

/-! ## A small discretization for concrete evaluation

The square `[-1,1]²` refined once: four cells and nine vertex unknowns,
numbered row by row; unknown `4` is the midpoint and the only interior one. -/

/-- Support point of unknown `k` on the `3 × 3` vertex grid. -/
def grid_point (k : Nat) : Point :=
  (((k % 3 : Nat) : ℚ) - 1, ((k / 3 : Nat) : ℚ) - 1)

/-- The cell with the four given vertex unknowns (lower left, lower right,
upper left, upper right). -/
def grid_cell (d0 d1 d2 d3 : Nat) : Cell where
  vertex_dof_index := fun v => [d0, d1, d2, d3].getD v 0
  vertex := fun v => grid_point ([d0, d1, d2, d3].getD v 0)

/-- The assembled matrix of the grid with every off-diagonal coupling
eliminated: constrained rows are identity rows, a free row keeps the diagonal
entry `8/3` of the bilinear Laplace stencil. -/
def grid_stiffness (c : ConstraintMatrix) : SparseMatrix :=
  fun i j => if i = j then (if c.is_constrained i then 1 else 8 / 3) else 0

/-- The assembled right hand side of the grid: the prescribed value in a
constrained row, the load `-10` (the source term times the unit mass of the
hat function) in a free row. -/
def grid_load (c : ConstraintMatrix) : Vector :=
  fun i => match c.lines i with
    | some value => value
    | none => -10

/-- A solver that solves a diagonal system exactly. -/
def exact_cg (A : SparseMatrix) (_x b : Vector) : Vector :=
  fun i => b i / A i i

/-- A solver that stops one unit below the exact solution of a diagonal
system. -/
def stalled_cg (A : SparseMatrix) (_x b : Vector) : Vector :=
  fun i => b i / A i i - 1

/-- The once refined square with the obstacle and boundary data of the
source and a given solver. -/
def grid_env (cg : SparseMatrix → Vector → Vector → Vector) : Env where
  cells := [grid_cell 0 1 3 4, grid_cell 1 2 4 5, grid_cell 3 4 6 7, grid_cell 4 5 7 8]
  n_cells := 5
  n_dofs := 9
  support_point := grid_point
  boundary_dofs := [0, 1, 2, 3, 5, 6, 7, 8]
  obstacle := Obstacle.value
  boundary_values := BoundaryValues.value
  stiffness := grid_stiffness
  load := grid_load
  cg := cg
  reduction_control := fun _ _ _ => (0, 0, 0)

/-- A state whose solution is `-1` at every unknown and whose residual is `0`. -/
def below_state : Step4 :=
  { Step4.init with solution := fun _ => -1 }

/-! ## A finer discretization with several interior unknowns

The square `[-1,1]²` refined twice: sixteen cells and twenty-five vertex
unknowns, numbered row by row; the nine unknowns `6, 7, 8, 11, 12, 13, 16, 17,
18` are interior. -/

/-- Support point of unknown `k` on the `5 × 5` vertex grid. -/
def fine_point (k : Nat) : Point :=
  (((k % 5 : Nat) : ℚ) / 2 - 1, ((k / 5 : Nat) : ℚ) / 2 - 1)

/-- The cell of the fine grid whose lower left vertex is unknown `d0`. -/
def fine_cell (d0 : Nat) : Cell where
  vertex_dof_index := fun v => [d0, d0 + 1, d0 + 5, d0 + 6].getD v 0
  vertex := fun v => fine_point ([d0, d0 + 1, d0 + 5, d0 + 6].getD v 0)

/-- The assembled right hand side of the fine grid: the prescribed value in a
constrained row, the load `-5/2` (the source term times the mass `1/4` of the
hat function) in a free row. -/
def fine_load (c : ConstraintMatrix) : Vector :=
  fun i => match c.lines i with
    | some value => value
    | none => -5 / 2

/-- A solver that solves a diagonal system exactly except in row `12`, where
it stops one unit below the exact solution. -/
def lagging_cg (A : SparseMatrix) (_x b : Vector) : Vector :=
  fun i => if i = 12 then b i / A i i - 1 else b i / A i i

/-- The twice refined square with the obstacle and boundary data of the
source and a given solver. -/
def fine_env (cg : SparseMatrix → Vector → Vector → Vector) : Env where
  cells := [0, 1, 2, 3, 5, 6, 7, 8, 10, 11, 12, 13, 15, 16, 17, 18].map fine_cell
  n_cells := 21
  n_dofs := 25
  support_point := fine_point
  boundary_dofs := [0, 1, 2, 3, 4, 5, 9, 10, 14, 15, 19, 20, 21, 22, 23, 24]
  obstacle := Obstacle.value
  boundary_values := BoundaryValues.value
  stiffness := grid_stiffness
  load := fine_load
  cg := cg
  reduction_control := fun _ _ _ => (0, 0, 0)

/-- The once refined square with the exact solver and the boundary data of
the source, for a given obstacle function. -/
def with_obstacle (obstacle : Point → ℚ) : Env :=
  { grid_env exact_cg with obstacle := obstacle }

/-- Modelled from the spec: the contract of the assembly under a constraint
set (spec §4.3), whose cell loop with `distribute_local_to_global` belongs to
the library. The row of a constrained unknown is an identity row with the
prescribed value on the right hand side, so every vector that has the
prescribed value in that entry satisfies it; the row of an unknown that is
free under two constraint sets has, on a vector that satisfies both sets, the
same residual under both, because eliminating known values only moves
them to the right hand side. -/
def Env.Eliminates (env : Env) : Prop :=
  (∀ (c : ConstraintMatrix) (u : Vector) (k : Nat) (value : ℚ),
      k < env.n_dofs → c.lines k = some value → u k = value →
        ∑ j in Finset.range env.n_dofs, env.stiffness c k j * u j = env.load c k)
    ∧ ∀ (c1 c2 : ConstraintMatrix) (u : Vector) (k : Nat),
        k < env.n_dofs → c1.lines k = none → c2.lines k = none →
        (∀ j value, c1.lines j = some value → u j = value) →
        (∀ j value, c2.lines j = some value → u j = value) →
          ∑ j in Finset.range env.n_dofs, env.stiffness c1 k j * u j - env.load c1 k
            = ∑ j in Finset.range env.n_dofs, env.stiffness c2 k j * u j - env.load c2 k

/-- The unconstrained solution as the program computes it: the solve of the
reference system from the zero vector, with the boundary values distributed. -/
def unconstrained_solution (env : Env) : Vector :=
  (boundary_constraints env).distribute
    (env.cg (env.stiffness (boundary_constraints env)) (fun _ => 0)
      (env.load (boundary_constraints env)))

/-- An obstacle that is `-1` at the midpoint of the square and nonnegative on
its boundary: `ψ(x, y) = x² + y² - 1`. -/
def bowl_obstacle (p : Point) : ℚ := p.1 ^ 2 + p.2 ^ 2 - 1

end Step41

namespace Step41

/-! ## Auxiliary lemmas -/

theorem foldl_preserves {α β : Type} (P : β → Prop) (f : β → α → β) (l : List α)
    (hstep : ∀ b a, a ∈ l → P b → P (f b a)) (b : β) (hb : P b) :
    P (l.foldl f b) := by
  induction l generalizing b with
  | nil => simpa using hb
  | cons a l ih =>
    simp only [List.foldl_cons]
    apply ih
    · intro b' a' ha' hb'
      exact hstep b' a' (List.mem_cons_of_mem _ ha') hb'
    · exact hstep b a (List.mem_cons_self _ _) hb

theorem foldl_establishes {α β : Type} (P Q : β → Prop) (f : β → α → β) (l : List α)
    (a : α) (ha : a ∈ l)
    (hP : ∀ b a', a' ∈ l → P b → P (f b a'))
    (hQ : ∀ b a', a' ∈ l → P b → Q b → Q (f b a'))
    (hest : ∀ b, P b → Q (f b a)) (b : β) (hb : P b) :
    Q (l.foldl f b) := by
  induction l generalizing b with
  | nil => simp at ha
  | cons a' l ih =>
    simp only [List.foldl_cons]
    have hPa : P (f b a') := hP b a' (List.mem_cons_self _ _) hb
    rcases List.mem_cons.mp ha with h | h
    · subst h
      have hq : Q (f b a) := hest b hb
      have : P (l.foldl f (f b a)) ∧ Q (l.foldl f (f b a)) := by
        apply foldl_preserves (fun s => P s ∧ Q s) f l _ _ ⟨hPa, hq⟩
        intro b' a'' ha'' hb'
        exact ⟨hP b' a'' (List.mem_cons_of_mem _ ha'') hb'.1,
          hQ b' a'' (List.mem_cons_of_mem _ ha'') hb'.1 hb'.2⟩
      exact this.2
    · apply ih h
      · intro b' a'' ha'' hb'
        exact hP b' a'' (List.mem_cons_of_mem _ ha'') hb'
      · intro b' a'' ha'' hb' hq'
        exact hQ b' a'' (List.mem_cons_of_mem _ ha'') hb' hq'
      · exact hPa

theorem add_line_set_inhomogeneity_lines (c : ConstraintMatrix) (i : Nat) (value : ℚ) (k : Nat) :
    ((c.add_line i).set_inhomogeneity i value).lines k
      = if k = i then some value else c.lines k := by
  unfold ConstraintMatrix.add_line ConstraintMatrix.set_inhomogeneity
    ConstraintMatrix.is_constrained
  cases h : c.lines i <;> by_cases hk : k = i <;> simp [h, hk]

theorem visit_vertex_fields (env : Env) (cell : Cell) (s : Step4) (v : Nat) :
    let s1 := visit_vertex env cell s v
    s1.resid_vector = s.resid_vector ∧ s1.system_matrix = s.system_matrix
      ∧ s1.system_matrix_complete = s.system_matrix_complete
      ∧ s1.tmp_solution = s.tmp_solution ∧ s1.system_rhs = s.system_rhs
      ∧ s1.system_rhs_complete = s.system_rhs_complete
      ∧ s1.cout = s.cout ∧ s1.files = s.files := by
  simp only [visit_vertex]
  split <;> simp

theorem visit_vertex_inv (env : Env) (cell : Cell) (st s : Step4) (v : Nat)
    (hv : cell.vertex v = env.support_point (cell.vertex_dof_index v))
    (h : ScanInv env st s) : ScanInv env st (visit_vertex env cell s v) := by
  obtain ⟨hr, hk⟩ := h
  refine ⟨by rw [(visit_vertex_fields env cell s v).1, hr], ?_⟩
  intro k
  simp only [visit_vertex, Prod.mk.eta, hv]
  split
  · rename_i htest
    by_cases hki : k = cell.vertex_dof_index v
    · subst hki
      right
      have hp : passes env st (cell.vertex_dof_index v) := by
        rcases hk (cell.vertex_dof_index v) with hu | hm
        · exact ⟨by rw [← hu.2.1]; exact htest.1, by rw [← hr]; exact htest.2⟩
        · exact hm.1
      refine ⟨hp, ?_, ?_, ?_⟩
      · simp [Vector.set]
      · simp [Vector.set]
      · simp [add_line_set_inhomogeneity_lines]
    · rcases hk k with hu | hm
      · left
        refine ⟨?_, ?_, ?_⟩
        · simpa [Vector.set, hki] using hu.1
        · simpa [Vector.set, hki] using hu.2.1
        · simpa [add_line_set_inhomogeneity_lines, hki] using hu.2.2
      · right
        refine ⟨hm.1, ?_, ?_, ?_⟩
        · simpa [Vector.set, hki] using hm.2.1
        · simpa [Vector.set, hki] using hm.2.2.1
        · simpa [add_line_set_inhomogeneity_lines, hki] using hm.2.2.2
  · exact hk k

theorem visit_vertex_keeps (env : Env) (cell : Cell) (st s : Step4) (v k : Nat)
    (hv : cell.vertex v = env.support_point (cell.vertex_dof_index v))
    (h : ScanInv env st s) (hm : passes env st k → Marked env st s k) :
    passes env st k → Marked env st (visit_vertex env cell s v) k := by
  intro hp
  rcases (visit_vertex_inv env cell st s v hv h).2 k with hu | hm1
  · exfalso
    have hmk := hm hp
    have h0 : (visit_vertex env cell s v).active_set k = 0 := hu.1
    simp only [visit_vertex] at h0
    split at h0
    · by_cases hki : k = cell.vertex_dof_index v
      · simp [Vector.set, hki] at h0
      · simp only [Vector.set, hki, if_false] at h0
        rw [hmk.2.1] at h0
        exact one_ne_zero h0
    · rw [hmk.2.1] at h0
      exact one_ne_zero h0
  · exact hm1

theorem visit_vertex_marks (env : Env) (cell : Cell) (st s : Step4) (v : Nat)
    (hv : cell.vertex v = env.support_point (cell.vertex_dof_index v))
    (h : ScanInv env st s) :
    passes env st (cell.vertex_dof_index v)
      → Marked env st (visit_vertex env cell s v) (cell.vertex_dof_index v) := by
  intro hp
  rcases h.2 (cell.vertex_dof_index v) with hu | hm
  · have htest : s.solution (cell.vertex_dof_index v) ≤ env.obstacle (cell.vertex v)
        ∧ s.resid_vector (cell.vertex_dof_index v) ≥ -(1 / 10 ^ 15) := by
      rw [hv, hu.2.1, h.1]
      exact hp
    simp only [visit_vertex, Prod.mk.eta]
    rw [if_pos htest]
    refine ⟨hp, ?_, ?_, ?_⟩
    · simp [Vector.set]
    · simp [Vector.set]
    · simp [add_line_set_inhomogeneity_lines, hv]
  · exact visit_vertex_keeps env cell st s v _ hv h (fun _ => hm) hp

theorem visit_cell_inv (env : Env) (cell : Cell) (st s : Step4)
    (hc : ∀ v < vertices_per_cell, cell.vertex v = env.support_point (cell.vertex_dof_index v))
    (h : ScanInv env st s) : ScanInv env st (visit_cell env s cell) := by
  unfold visit_cell
  apply foldl_preserves (ScanInv env st) _ _ _ s h
  intro b v hv hb
  exact visit_vertex_inv env cell st b v (hc v (List.mem_range.mp hv)) hb

theorem visit_cell_keeps (env : Env) (cell : Cell) (st s : Step4) (k : Nat)
    (hc : ∀ v < vertices_per_cell, cell.vertex v = env.support_point (cell.vertex_dof_index v))
    (h : ScanInv env st s) (hm : passes env st k → Marked env st s k) :
    passes env st k → Marked env st (visit_cell env s cell) k := by
  unfold visit_cell
  have := foldl_preserves (fun b => ScanInv env st b ∧ (passes env st k → Marked env st b k))
    (visit_vertex env cell) (List.range vertices_per_cell)
    (fun b v hv hb => ⟨visit_vertex_inv env cell st b v (hc v (List.mem_range.mp hv)) hb.1,
      visit_vertex_keeps env cell st b v k (hc v (List.mem_range.mp hv)) hb.1 hb.2⟩)
    s ⟨h, hm⟩
  exact this.2

theorem visit_cell_marks (env : Env) (cell : Cell) (st s : Step4) (v : Nat)
    (hv : v < vertices_per_cell)
    (hc : ∀ v < vertices_per_cell, cell.vertex v = env.support_point (cell.vertex_dof_index v))
    (h : ScanInv env st s) :
    passes env st (cell.vertex_dof_index v)
      → Marked env st (visit_cell env s cell) (cell.vertex_dof_index v) := by
  unfold visit_cell
  apply foldl_establishes (ScanInv env st)
    (fun b => passes env st (cell.vertex_dof_index v)
      → Marked env st b (cell.vertex_dof_index v))
    (visit_vertex env cell) (List.range vertices_per_cell) v (List.mem_range.mpr hv)
  · intro b w hw hb
    exact visit_vertex_inv env cell st b w (hc w (List.mem_range.mp hw)) hb
  · intro b w hw hb hq
    exact visit_vertex_keeps env cell st b w _ (hc w (List.mem_range.mp hw)) hb hq
  · intro b hb
    exact visit_vertex_marks env cell st b v (hc v hv) hb
  · exact h

theorem scan_start_inv (env : Env) (st : Step4) :
    ScanInv env st { st with constraints := st.constraints.clear, active_set := fun _ => 0 } :=
  ⟨rfl, fun _ => Or.inl ⟨rfl, rfl, rfl⟩⟩

theorem active_set_scan_inv (env : Env) (hc : env.Conforming) (st : Step4) :
    ScanInv env st (active_set_scan env st) := by
  unfold active_set_scan
  apply foldl_preserves (ScanInv env st) _ _ _ _ (scan_start_inv env st)
  intro b cell hcell hb
  exact visit_cell_inv env cell st b (fun v hv => (hc.1 cell hcell v hv).1) hb

theorem active_set_scan_marks (env : Env) (hc : env.Conforming) (st : Step4) (k : Nat)
    (hk : k < env.n_dofs) (hp : passes env st k) :
    Marked env st (active_set_scan env st) k := by
  obtain ⟨cell, hcell, v, hv, hvk⟩ := hc.2 k hk
  have := foldl_establishes (ScanInv env st) (fun b => passes env st k → Marked env st b k)
    (visit_cell env) env.cells cell hcell
    (fun b c hcm hb => visit_cell_inv env c st b (fun v hv => (hc.1 c hcm v hv).1) hb)
    (fun b c hcm hb hq =>
      visit_cell_keeps env c st b k (fun v hv => (hc.1 c hcm v hv).1) hb hq)
    (fun b hb => by
      have := visit_cell_marks env cell st b v hv (fun v hv => (hc.1 cell hcell v hv).1) hb
      rwa [hvk] at this)
    _ (scan_start_inv env st)
  exact this hp

/-- The scan leaves every member other than `constraints`, `solution` and
`active_set` as it was. -/
theorem active_set_scan_fields (env : Env) (st : Step4) :
    let s1 := active_set_scan env st
    s1.resid_vector = st.resid_vector ∧ s1.system_matrix = st.system_matrix
      ∧ s1.system_matrix_complete = st.system_matrix_complete
      ∧ s1.tmp_solution = st.tmp_solution ∧ s1.system_rhs = st.system_rhs
      ∧ s1.system_rhs_complete = st.system_rhs_complete
      ∧ s1.cout = st.cout ∧ s1.files = st.files := by
  unfold active_set_scan
  apply foldl_preserves (fun s : Step4 =>
    s.resid_vector = st.resid_vector ∧ s.system_matrix = st.system_matrix
      ∧ s.system_matrix_complete = st.system_matrix_complete
      ∧ s.tmp_solution = st.tmp_solution ∧ s.system_rhs = st.system_rhs
      ∧ s.system_rhs_complete = st.system_rhs_complete
      ∧ s.cout = st.cout ∧ s.files = st.files)
  · intro b cell _ hb
    unfold visit_cell
    apply foldl_preserves (fun s : Step4 =>
      s.resid_vector = st.resid_vector ∧ s.system_matrix = st.system_matrix
        ∧ s.system_matrix_complete = st.system_matrix_complete
        ∧ s.tmp_solution = st.tmp_solution ∧ s.system_rhs = st.system_rhs
        ∧ s.system_rhs_complete = st.system_rhs_complete
        ∧ s.cout = st.cout ∧ s.files = st.files) _ _ _ b hb
    intro b1 v _ hb1
    obtain ⟨h1, h2, h3, h4, h5, h6, h7, h8⟩ := visit_vertex_fields env cell b1 v
    obtain ⟨g1, g2, g3, g4, g5, g6, g7, g8⟩ := hb1
    exact ⟨h1.trans g1, h2.trans g2, h3.trans g3, h4.trans g4, h5.trans g5, h6.trans g6,
      h7.trans g7, h8.trans g8⟩
  · exact ⟨rfl, rfl, rfl, rfl, rfl, rfl, rfl, rfl⟩

theorem projection_active_set_vectors (env : Env) (st : Step4) :
    (projection_active_set env st).active_set = (active_set_scan env st).active_set
      ∧ (projection_active_set env st).solution = (active_set_scan env st).solution
      ∧ (projection_active_set env st).resid_vector = st.resid_vector :=
  ⟨rfl, rfl, (active_set_scan_fields env st).1⟩

theorem clamp_foldl (l : List Nat) (r : Vector) (k : Nat) :
    l.foldl clamp_entry r k = if k ∈ l then min 0 (r k) else r k := by
  induction l generalizing r with
  | nil => simp
  | cons a l ih =>
    simp only [List.foldl_cons, ih, List.mem_cons]
    by_cases hka : k = a
    · subst hka
      by_cases hpos : r k > 0
      · simp [clamp_entry, hpos, Vector.set, min_eq_left (le_of_lt hpos)]
      · simp only [clamp_entry, hpos, if_false, true_or, if_true]
        split
        · rfl
        · exact (min_eq_right (not_lt.mp hpos)).symm
    · have : clamp_entry r a k = r k := by
        unfold clamp_entry
        split
        · simp [Vector.set, hka]
        · rfl
      simp [this, hka]

theorem residual_update_entry (env : Env) (st : Step4) (k : Nat) (hk : k < env.n_dofs) :
    (residual_update env st).resid_vector k
      = min 0 (∑ j in Finset.range env.n_dofs, st.system_matrix_complete k j * st.solution j
          - st.system_rhs_complete k) := by
  simp only [residual_update, clamp_foldl, List.mem_range, hk, if_true,
    SparseMatrix.vmult_add]
  congr 1
  ring

theorem projection_active_set_fields (env : Env) (st : Step4) :
    let s1 := projection_active_set env st
    s1.resid_vector = st.resid_vector ∧ s1.system_matrix = st.system_matrix
      ∧ s1.system_matrix_complete = st.system_matrix_complete
      ∧ s1.tmp_solution = st.tmp_solution ∧ s1.system_rhs = st.system_rhs
      ∧ s1.system_rhs_complete = st.system_rhs_complete
      ∧ s1.cout = st.cout ∧ s1.files = st.files :=
  active_set_scan_fields env st

theorem outer_iteration_complete (env : Env) (i : Nat) (st : Step4) :
    (outer_iteration env i st).system_matrix_complete = st.system_matrix_complete
      ∧ (outer_iteration env i st).system_rhs_complete = st.system_rhs_complete := by
  obtain ⟨_, _, h3, _, _, h6, _, _⟩ := projection_active_set_fields env
    ((residual_update env (solve_phase env st)).print .update_active_set)
  simp only [outer_iteration, update_phase, output_results, Step4.print] at *
  exact ⟨h3, h6⟩

theorem seed_complete (env : Env) :
    (seed env).system_matrix_complete = env.stiffness (boundary_constraints env)
      ∧ (seed env).system_rhs_complete = env.load (boundary_constraints env) := by
  obtain ⟨_, _, h3, _, _, h6, _, _⟩ := projection_active_set_fields env (seed_entry env)
  simp only [seed]
  rw [h3, h6]
  constructor
  · funext i j
    simp [seed_entry, reference_assembly, assemble_system, setup_system, make_grid, Step4.print, Step4.init,
      boundary_constraints, ConstraintMatrix.clear, ConstraintMatrix.close]
  · funext i
    simp [seed_entry, reference_assembly, assemble_system, setup_system, make_grid, Step4.print, Step4.init,
      boundary_constraints, ConstraintMatrix.clear, ConstraintMatrix.close]

theorem loop_state_complete (env : Env) (i : Nat) :
    (loop_state env i).system_matrix_complete = env.stiffness (boundary_constraints env)
      ∧ (loop_state env i).system_rhs_complete = env.load (boundary_constraints env) := by
  induction i with
  | zero => exact seed_complete env
  | succ i ih =>
    obtain ⟨h1, h2⟩ := outer_iteration_complete env i (loop_state env i)
    simp only [loop_state]
    exact ⟨h1.trans ih.1, h2.trans ih.2⟩

theorem solve_phase_complete (env : Env) (st : Step4) :
    (solve_phase env st).system_matrix_complete = st.system_matrix_complete
      ∧ (solve_phase env st).system_rhs_complete = st.system_rhs_complete := by
  simp [solve_phase, solve, assemble_system, Step4.print]


theorem interpolate_boundary_values_lines (env : Env) (c : ConstraintMatrix) (k : Nat) :
    (interpolate_boundary_values env c).lines k
      = if k ∈ env.boundary_dofs then some (env.boundary_values (env.support_point k))
        else c.lines k := by
  unfold interpolate_boundary_values
  generalize env.boundary_dofs = l
  induction l generalizing c with
  | nil => simp
  | cons a l ih =>
    simp only [List.foldl_cons, ih, add_line_set_inhomogeneity_lines, List.mem_cons]
    by_cases hl : k ∈ l
    · simp [hl]
    · by_cases hka : k = a
      · simp [hka]
      · simp [hl, hka]

theorem projection_active_set_lines (env : Env) (st : Step4) (k : Nat) :
    (projection_active_set env st).constraints.lines k
      = if k ∈ env.boundary_dofs then some (env.boundary_values (env.support_point k))
        else (active_set_scan env st).constraints.lines k := by
  simp only [projection_active_set, ConstraintMatrix.close]
  exact interpolate_boundary_values_lines env _ k

/-- The reset invariant of the scan, which needs no assumption on the mesh:
an unknown is either unmarked with its entry value or marked with value `0`. -/
theorem visit_vertex_reset (env : Env) (cell : Cell) (st s : Step4) (v : Nat)
    (h : ∀ k, (s.active_set k = 0 ∧ s.solution k = st.solution k)
      ∨ (s.active_set k = 1 ∧ s.solution k = 0)) (k : Nat) :
    ((visit_vertex env cell s v).active_set k = 0
        ∧ (visit_vertex env cell s v).solution k = st.solution k)
      ∨ ((visit_vertex env cell s v).active_set k = 1
        ∧ (visit_vertex env cell s v).solution k = 0) := by
  simp only [visit_vertex]
  split
  · by_cases hki : k = cell.vertex_dof_index v
    · right
      simp [Vector.set, hki]
    · simpa [Vector.set, hki] using h k
  · exact h k

theorem active_set_scan_reset (env : Env) (st : Step4) (k : Nat) :
    ((active_set_scan env st).active_set k = 0
        ∧ (active_set_scan env st).solution k = st.solution k)
      ∨ ((active_set_scan env st).active_set k = 1
        ∧ (active_set_scan env st).solution k = 0) := by
  have := foldl_preserves
    (fun s : Step4 => ∀ k, (s.active_set k = 0 ∧ s.solution k = st.solution k)
      ∨ (s.active_set k = 1 ∧ s.solution k = 0))
    (visit_cell env) env.cells
    (fun b cell _ hb => by
      unfold visit_cell
      exact foldl_preserves
        (fun s : Step4 => ∀ k, (s.active_set k = 0 ∧ s.solution k = st.solution k)
          ∨ (s.active_set k = 1 ∧ s.solution k = 0))
        (visit_vertex env cell) _
        (fun b1 v _ hb1 => visit_vertex_reset env cell st b1 v hb1) b hb)
    { st with constraints := st.constraints.clear, active_set := fun _ => 0 }
    (fun _ => Or.inl ⟨rfl, rfl⟩)
  exact this k

theorem foldl_related {α β : Type} (R : β → β → Prop) (f : β → α → β) (l : List α)
    (hstep : ∀ b1 b2 a, R b1 b2 → R (f b1 a) (f b2 a)) (b1 b2 : β) (hb : R b1 b2) :
    R (l.foldl f b1) (l.foldl f b2) := by
  induction l generalizing b1 b2 with
  | nil => simpa using hb
  | cons a l ih =>
    simp only [List.foldl_cons]
    exact ih _ _ (hstep b1 b2 a hb)

/-- Two states agree on everything the scan reads or writes. -/
theorem visit_vertex_related (env : Env) (cell : Cell) (s1 s2 : Step4) (v : Nat)
    (h : s1.constraints = s2.constraints ∧ s1.solution = s2.solution
      ∧ s1.active_set = s2.active_set ∧ s1.resid_vector = s2.resid_vector) :
    (visit_vertex env cell s1 v).constraints = (visit_vertex env cell s2 v).constraints
      ∧ (visit_vertex env cell s1 v).solution = (visit_vertex env cell s2 v).solution
      ∧ (visit_vertex env cell s1 v).active_set = (visit_vertex env cell s2 v).active_set
      ∧ (visit_vertex env cell s1 v).resid_vector
          = (visit_vertex env cell s2 v).resid_vector := by
  obtain ⟨h1, h2, h3, h4⟩ := h
  simp only [visit_vertex, h1, h2, h3, h4]
  split <;> simp [h1, h2, h3, h4]

theorem active_set_scan_related (env : Env) (s1 s2 : Step4)
    (hu : s1.solution = s2.solution) (hr : s1.resid_vector = s2.resid_vector) :
    (active_set_scan env s1).constraints = (active_set_scan env s2).constraints
      ∧ (active_set_scan env s1).solution = (active_set_scan env s2).solution
      ∧ (active_set_scan env s1).active_set = (active_set_scan env s2).active_set
      ∧ (active_set_scan env s1).resid_vector = (active_set_scan env s2).resid_vector := by
  unfold active_set_scan
  apply foldl_related (fun a b : Step4 => a.constraints = b.constraints
    ∧ a.solution = b.solution ∧ a.active_set = b.active_set
    ∧ a.resid_vector = b.resid_vector)
  · intro b1 b2 cell hb
    unfold visit_cell
    exact foldl_related (fun a b : Step4 => a.constraints = b.constraints
      ∧ a.solution = b.solution ∧ a.active_set = b.active_set
      ∧ a.resid_vector = b.resid_vector) (visit_vertex env cell) _
      (fun c1 c2 v hc => visit_vertex_related env cell c1 c2 v hc) b1 b2 hb
  · exact ⟨rfl, hu, rfl, hr⟩


theorem projection_active_set_cout (env : Env) (st : Step4) :
    (projection_active_set env st).cout = st.cout :=
  (projection_active_set_fields env st).2.2.2.2.2.2.1

theorem projection_active_set_files (env : Env) (st : Step4) :
    (projection_active_set env st).files = st.files :=
  (projection_active_set_fields env st).2.2.2.2.2.2.2

theorem projection_active_set_tmp_solution (env : Env) (st : Step4) :
    (projection_active_set env st).tmp_solution = st.tmp_solution :=
  (projection_active_set_fields env st).2.2.2.1

theorem outer_iteration_cout (env : Env) (i : Nat) (st : Step4) :
    (outer_iteration env i st).cout = st.cout ++ pass_lines env i st := by
  simp only [outer_iteration, update_phase, Step4.print, output_results, pass_lines,
    projection_active_set_cout]
  simp [residual_update, solve_phase, solve, assemble_system, Step4.print]

theorem outer_iteration_files (env : Env) (i : Nat) (st : Step4) :
    (outer_iteration env i st).files
      = st.files ++ [⟨"output_" ++ toString i, (outer_iteration env i st).tmp_solution,
          (outer_iteration env i st).resid_vector, (outer_iteration env i st).active_set⟩] := by
  simp only [outer_iteration, update_phase, Step4.print, output_results,
    projection_active_set_files]
  simp [residual_update, solve_phase, solve, assemble_system, Step4.print]

theorem outer_iteration_tmp_solution (env : Env) (i : Nat) (st : Step4) :
    (outer_iteration env i st).tmp_solution = (solve_phase env st).solution := by
  simp only [outer_iteration, update_phase, Step4.print, output_results,
    projection_active_set_tmp_solution]
  simp [residual_update, solve_phase]

theorem seed_cout (env : Env) :
    (seed env).cout = [.solving_problem 2, .number_of_active_cells env.cells.length,
      .total_number_of_cells env.n_cells, .number_of_degrees_of_freedom env.n_dofs,
      .update_active_set] := by
  simp [seed, projection_active_set_cout, seed_entry, reference_assembly, assemble_system,
    setup_system, make_grid, Step4.print, Step4.init]

theorem seed_files (env : Env) : (seed env).files = [] := by
  simp [seed, projection_active_set_files, seed_entry, reference_assembly, assemble_system,
    setup_system, make_grid, Step4.print, Step4.init]

theorem loop_state_files_length (env : Env) (m : Nat) :
    (loop_state env m).files.length = m := by
  induction m with
  | zero => simp [loop_state, seed_files]
  | succ m ih => simp [loop_state, outer_iteration_files, ih]

theorem loop_state_count_solve (env : Env) (m : Nat) :
    ((loop_state env m).cout.filter Line.is_solve).length = m := by
  induction m with
  | zero => simp [loop_state, seed_cout, Line.is_solve]
  | succ m ih => simp [loop_state, outer_iteration_cout, pass_lines, ih, Line.is_solve]

theorem loop_state_count_assemble (env : Env) (m : Nat) :
    ((loop_state env m).cout.filter Line.is_assemble).length = m := by
  induction m with
  | zero => simp [loop_state, seed_cout, Line.is_assemble]
  | succ m ih => simp [loop_state, outer_iteration_cout, pass_lines, ih, Line.is_assemble]

theorem loop_state_labels (env : Env) (m : Nat) :
    ∀ l ∈ (loop_state env m).cout, l.label ∈ pass_labels ∨ l ∈ (seed env).cout := by
  induction m with
  | zero =>
    intro l hl
    exact Or.inr hl
  | succ m ih =>
    intro l hl
    simp only [loop_state, outer_iteration_cout, List.mem_append] at hl
    rcases hl with hl | hl
    · exact ih l hl
    · left
      simp only [pass_lines, List.mem_cons, List.mem_singleton, List.not_mem_nil,
        or_false] at hl
      rcases hl with h | h | h | h | h | h | h <;> subst h <;> simp [Line.label, pass_labels]

/-- What the `for` loop does when it starts pass `i` with `remaining` passes
left: it ends in the state of some loop counter `m` between `i` and
`i + remaining`, no pass before `m` met the tolerance, and if it stops before
the bound then by a pass that met it. -/
theorem outer_loop_spec (env : Env) (remaining i : Nat) :
    ∃ m, i ≤ m ∧ m ≤ i + remaining
      ∧ outer_loop env remaining i (loop_state env i) = loop_state env m
      ∧ (∀ p, i < p → p < m →
          ¬ below_tolerance (l2_norm_sq env.n_dofs (loop_state env p).resid_vector))
      ∧ (m < i + remaining →
          i < m ∧ below_tolerance (l2_norm_sq env.n_dofs (loop_state env m).resid_vector))
      ∧ (0 < remaining → i < m) := by
  induction remaining generalizing i with
  | zero =>
    exact ⟨i, le_refl _, le_refl _, rfl, fun p h1 h2 => absurd (lt_trans h1 h2) (lt_irrefl _),
      fun h => absurd h (lt_irrefl _), fun h => absurd h (lt_irrefl _)⟩
  | succ remaining ih =>
    by_cases hb : below_tolerance
        (l2_norm_sq env.n_dofs (outer_iteration env i (loop_state env i)).resid_vector)
    · refine ⟨i + 1, Nat.le_succ i, by omega, ?_, ?_, ?_, fun _ => Nat.lt_succ_self i⟩
      · simp only [outer_loop, hb, if_true, loop_state]
      · intro p h1 h2
        omega
      · intro _
        exact ⟨Nat.lt_succ_self i, hb⟩
    · obtain ⟨m, h1, h2, h3, h4, h5, _⟩ := ih (i + 1)
      refine ⟨m, by omega, by omega, ?_, ?_, ?_, fun _ => by omega⟩
      · simp only [outer_loop, hb, if_false]
        exact h3
      · intro p hp1 hp2
        by_cases hpi : p = i + 1
        · subst hpi
          exact hb
        · exact h4 p (by omega) hp2
      · intro hm
        obtain ⟨h6, h7⟩ := h5 (by omega)
        exact ⟨by omega, h7⟩

theorem run_spec (env : Env) :
    ∃ m, m ≤ env.n_dofs ∧ run env = loop_state env m
      ∧ (∀ p, 0 < p → p < m →
          ¬ below_tolerance (l2_norm_sq env.n_dofs (loop_state env p).resid_vector))
      ∧ (m < env.n_dofs →
          0 < m ∧ below_tolerance (l2_norm_sq env.n_dofs (loop_state env m).resid_vector))
      ∧ (0 < env.n_dofs → 0 < m) := by
  obtain ⟨m, _, h2, h3, h4, h5, h6⟩ := outer_loop_spec env env.n_dofs 0
  exact ⟨m, by omega, h3, h4, fun h => h5 (by omega), h6⟩

theorem grid_env_conforming (cg : SparseMatrix → Vector → Vector → Vector) :
    (grid_env cg).Conforming := by
  simp only [Env.Conforming, grid_env]
  refine ⟨?_, by decide⟩
  intro cell hcell v hv
  simp only [List.mem_cons, List.mem_singleton, List.not_mem_nil, or_false] at hcell
  rcases hcell with h | h | h | h <;> subst h <;> refine ⟨rfl, ?_⟩ <;>
    revert v <;> decide

theorem stalled_never_below :
    ∀ p, 0 < p → p ≤ (grid_env stalled_cg).n_dofs →
      ¬ below_tolerance (l2_norm_sq (grid_env stalled_cg).n_dofs
        (loop_state (grid_env stalled_cg) p).resid_vector) := by
  intro p hp0 hp9
  have : p < 10 := Nat.lt_succ_of_le hp9
  revert hp0 hp9
  revert p
  decide!

theorem obstacle_value_eq (p : Point) :
    Obstacle.value p
      = if p.1 < -1 / 2 then -1 / 5 else if p.1 < 0 then -2 / 5
        else if p.1 < 1 / 2 then -3 / 5 else -4 / 5 := by
  unfold Obstacle.value
  by_cases h1 : p.1 < -1 / 2
  · rw [if_pos h1, if_pos h1]
  · rw [if_neg h1, if_neg h1]
    by_cases h2 : p.1 < 0
    · rw [if_pos ⟨not_lt.mp h1, h2⟩, if_pos h2]
    · rw [if_neg (fun h => h2 h.2), if_neg h2]
      by_cases h3 : p.1 < 1 / 2
      · rw [if_pos ⟨not_lt.mp h2, h3⟩, if_pos h3]
      · rw [if_neg (fun h => h3 h.2), if_neg h3]

theorem obstacle_value_neg (p : Point) : Obstacle.value p ≤ -1 / 5 := by
  rw [obstacle_value_eq]
  split_ifs <;> norm_num

/-- A scan in which no vertex passes the first half of the test only clears
the constraint set and the indicator. -/
theorem active_set_scan_none (env : Env) (st : Step4)
    (h : ∀ cell ∈ env.cells, ∀ v < vertices_per_cell,
      ¬ st.solution (cell.vertex_dof_index v) ≤ env.obstacle (cell.vertex v)) :
    active_set_scan env st
      = { st with constraints := st.constraints.clear, active_set := fun _ => 0 } := by
  unfold active_set_scan
  apply foldl_preserves
    (fun s : Step4 => s = { st with constraints := st.constraints.clear, active_set := fun _ => 0 })
  · intro b cell hcell hb
    unfold visit_cell
    apply foldl_preserves
      (fun s : Step4 =>
        s = { st with constraints := st.constraints.clear, active_set := fun _ => 0 }) _ _ _ b hb
    intro b1 v hv hb1
    have hfail := h cell hcell v (List.mem_range.mp hv)
    subst hb1
    simp only [visit_vertex, Prod.mk.eta]
    rw [if_neg (fun hh => hfail hh.1)]
  · rfl

theorem projection_active_set_none (env : Env) (st : Step4)
    (h : ∀ cell ∈ env.cells, ∀ v < vertices_per_cell,
      ¬ st.solution (cell.vertex_dof_index v) ≤ env.obstacle (cell.vertex v)) :
    projection_active_set env st
      = { st with constraints := boundary_constraints env, active_set := fun _ => 0 } := by
  simp only [projection_active_set, active_set_scan_none env st h, ConstraintMatrix.close,
    ConstraintMatrix.clear, boundary_constraints]

theorem solve_phase_system (env : Env) (st : Step4) :
    (solve_phase env st).system_matrix = env.stiffness st.constraints
      ∧ (solve_phase env st).system_rhs = env.load st.constraints
      ∧ (solve_phase env st).solution
          = st.constraints.distribute
              (env.cg (env.stiffness st.constraints) st.solution (env.load st.constraints))
      ∧ (solve_phase env st).constraints = st.constraints := by
  simp [solve_phase, solve, assemble_system, Step4.print]

theorem update_phase_vectors (env : Env) (i : Nat) (st : Step4) :
    (update_phase env i st).constraints = (projection_active_set env st).constraints
      ∧ (update_phase env i st).active_set = (projection_active_set env st).active_set
      ∧ (update_phase env i st).solution = (projection_active_set env st).solution
      ∧ (update_phase env i st).resid_vector = st.resid_vector
      ∧ (update_phase env i st).tmp_solution = st.tmp_solution := by
  have h := active_set_scan_related env (st.print .update_active_set) st rfl rfl
  have hf := projection_active_set_fields env (st.print .update_active_set)
  simp only [update_phase, output_results, Step4.print, projection_active_set] at *
  exact ⟨by rw [h.1], h.2.2.1, h.2.1, hf.1, hf.2.2.2.1⟩

theorem seed_of_negative (env : Env) (h : ∀ p, env.obstacle p < 0) :
    seed env
      = { seed_entry env with
          constraints := boundary_constraints env, active_set := fun _ => 0 } := by
  unfold seed
  apply projection_active_set_none
  intro cell _ v _
  exact not_le.mpr (h (cell.vertex v))

/-- The indicator after the scan, for an unknown of a conforming
discretization, in terms of the vectors on entry. -/
theorem active_set_scan_iff (env : Env) (hc : env.Conforming) (st : Step4) (k : Nat)
    (hk : k < env.n_dofs) :
    (active_set_scan env st).active_set k = 1 ↔ passes env st k := by
  constructor
  · intro h1
    rcases (active_set_scan_inv env hc st).2 k with hu | hm
    · rw [hu.1] at h1
      exact absurd h1 (by norm_num)
    · exact hm.1
  · intro hp
    exact (active_set_scan_marks env hc st k hk hp).2.1

theorem l2_norm_sq_zero (n : Nat) (v : Vector) (h : ∀ k < n, v k = 0) :
    l2_norm_sq n v = 0 := by
  unfold l2_norm_sq
  apply Finset.sum_eq_zero
  intro k hk
  rw [h k (Finset.mem_range.mp hk)]
  norm_num

theorem below_tolerance_zero : below_tolerance 0 := by
  unfold below_tolerance
  norm_num

theorem loop_state_succ_vectors (env : Env) (i : Nat) :
    (loop_state env (i + 1)).constraints
        = (projection_active_set env
            (residual_update env (solve_phase env (loop_state env i)))).constraints
      ∧ (loop_state env (i + 1)).active_set
        = (projection_active_set env
            (residual_update env (solve_phase env (loop_state env i)))).active_set
      ∧ (loop_state env (i + 1)).solution
        = (projection_active_set env
            (residual_update env (solve_phase env (loop_state env i)))).solution
      ∧ (loop_state env (i + 1)).resid_vector
        = (residual_update env (solve_phase env (loop_state env i))).resid_vector
      ∧ (loop_state env (i + 1)).tmp_solution
        = (solve_phase env (loop_state env i)).solution := by
  obtain ⟨h1, h2, h3, h4, h5⟩ := update_phase_vectors env i
    (residual_update env (solve_phase env (loop_state env i)))
  simp only [loop_state, outer_iteration]
  refine ⟨h1, h2, h3, h4, ?_⟩
  rw [h5]
  simp [residual_update, solve_phase]

/-- When the first pass meets the tolerance, `run` ends after that pass. -/
theorem run_stops_after_first (env : Env) (hn : 0 < env.n_dofs)
    (hb : below_tolerance (l2_norm_sq env.n_dofs (loop_state env 1).resid_vector)) :
    run env = loop_state env 1 := by
  obtain ⟨m, _, hm2, hm3, _, hm5⟩ := run_spec env
  have hpos : 0 < m := hm5 hn
  have hle : m ≤ 1 := by
    by_contra hgt
    exact hm3 1 (by omega) (by omega) hb
  have : m = 1 := by omega
  rw [hm2, this]

theorem fine_env_conforming (cg : SparseMatrix → Vector → Vector → Vector) :
    (fine_env cg).Conforming := by
  simp only [Env.Conforming, fine_env]
  refine ⟨?_, by decide⟩
  intro cell hcell v hv
  obtain ⟨d, hd, rfl⟩ := List.mem_map.mp hcell
  clear hcell
  refine ⟨rfl, ?_⟩
  revert v
  revert d
  decide

theorem boundary_constraints_lines (env : Env) (k : Nat) :
    (boundary_constraints env).lines k
      = if k ∈ env.boundary_dofs then some (env.boundary_values (env.support_point k))
        else none := by
  unfold boundary_constraints
  rw [interpolate_boundary_values_lines]

theorem l2_norm_sq_ge (n : Nat) (v : Vector) (k : Nat) (hk : k < n) :
    v k ^ 2 ≤ l2_norm_sq n v := by
  unfold l2_norm_sq
  exact Finset.single_le_sum (f := fun i => v i ^ 2) (fun i _ => sq_nonneg (v i))
    (Finset.mem_range.mpr hk)

/-- When no pass up to loop counter `j` meets the tolerance and the bound
allows another pass, `run` goes beyond loop counter `j`. -/
theorem run_reaches (env : Env) (j : Nat) (hj : j < env.n_dofs)
    (h : ∀ p, 0 < p → p ≤ j →
      ¬ below_tolerance (l2_norm_sq env.n_dofs (loop_state env p).resid_vector)) :
    ∃ m, j < m ∧ m ≤ env.n_dofs ∧ run env = loop_state env m := by
  obtain ⟨m, hm1, hm2, _, hm4, hm5⟩ := run_spec env
  refine ⟨m, ?_, hm1, hm2⟩
  by_contra hle
  have hmn : m < env.n_dofs := by omega
  exact h m (hm4 hmn).1 (by omega) (hm4 hmn).2

theorem diagonal_row_sum (n k : Nat) (hk : k < n) (d : ℚ) (u : Vector) :
    ∑ j in Finset.range n, (if k = j then d else 0) * u j = d * u k := by
  rw [Finset.sum_eq_single k]
  · simp
  · intro j _ hjk
    simp [Ne.symm hjk]
  · intro hk'
    exact absurd (Finset.mem_range.mpr hk) hk'

theorem lagging_cg_free (c : ConstraintMatrix) (x : Vector) (k : Nat) (h : c.lines k = none) :
    lagging_cg (grid_stiffness c) x (fine_load c) k
      = if k = 12 then -31 / 16 else -15 / 16 := by
  simp only [lagging_cg, grid_stiffness, fine_load, ConstraintMatrix.is_constrained, h]
  split <;> norm_num

theorem fine_negative (cg : SparseMatrix → Vector → Vector → Vector) (p : Point) :
    (fine_env cg).obstacle p < 0 := by
  have := obstacle_value_neg p
  show Obstacle.value p < 0
  linarith

theorem fine_first_solve (k : Nat) :
    (solve_phase (fine_env lagging_cg) (seed (fine_env lagging_cg))).solution k
      = if k ∈ (fine_env lagging_cg).boundary_dofs then 0
        else if k = 12 then -31 / 16 else -15 / 16 := by
  rw [(solve_phase_system _ _).2.2.1, seed_of_negative _ (fine_negative _)]
  simp only [ConstraintMatrix.distribute]
  have hl := boundary_constraints_lines (fine_env lagging_cg) k
  by_cases hb : k ∈ (fine_env lagging_cg).boundary_dofs
  · rw [if_pos hb] at hl
    rw [hl, if_pos hb]
    rfl
  · rw [if_neg hb] at hl
    rw [hl, if_neg hb]
    exact lagging_cg_free (boundary_constraints (fine_env lagging_cg)) (fun _ => 0) k hl

theorem fine_first_residual (k : Nat) (hk : k < 25) :
    (loop_state (fine_env lagging_cg) 1).resid_vector k = if k = 12 then -8 / 3 else 0 := by
  rw [(loop_state_succ_vectors _ 0).2.2.2.1]
  show (residual_update (fine_env lagging_cg)
    (solve_phase (fine_env lagging_cg) (seed (fine_env lagging_cg)))).resid_vector k = _
  rw [residual_update_entry _ _ k hk, (solve_phase_complete _ _).1,
    (solve_phase_complete _ _).2, (seed_complete _).1, (seed_complete _).2]
  have hl := boundary_constraints_lines (fine_env lagging_cg) k
  have hsum : ∑ j in Finset.range (fine_env lagging_cg).n_dofs,
      (fine_env lagging_cg).stiffness (boundary_constraints (fine_env lagging_cg)) k j
        * (solve_phase (fine_env lagging_cg) (seed (fine_env lagging_cg))).solution j
      = (if (boundary_constraints (fine_env lagging_cg)).is_constrained k then 1 else 8 / 3)
        * (solve_phase (fine_env lagging_cg) (seed (fine_env lagging_cg))).solution k :=
    diagonal_row_sum 25 k hk _ _
  rw [hsum, fine_first_solve]
  show min 0 (_ - fine_load (boundary_constraints (fine_env lagging_cg)) k) = _
  unfold fine_load ConstraintMatrix.is_constrained
  by_cases hb : k ∈ (fine_env lagging_cg).boundary_dofs
  · rw [if_pos hb] at hl
    have h12 : k ≠ 12 := by
      intro h
      rw [h] at hb
      revert hb
      decide
    rw [hl, if_pos hb, if_neg h12]
    simp [BoundaryValues.value, fine_env]
  · rw [if_neg hb] at hl
    rw [hl, if_neg hb]
    by_cases h12 : k = 12
    · simp only [h12, if_true]
      norm_num
    · simp only [h12, if_false]
      norm_num

theorem residual_update_solution (env : Env) (st : Step4) :
    (residual_update env st).solution = st.solution := rfl

theorem loop_state_zero (env : Env) : loop_state env 0 = seed env := rfl

theorem fine_env_fields (cg : SparseMatrix → Vector → Vector → Vector) :
    (fine_env cg).stiffness = grid_stiffness ∧ (fine_env cg).load = fine_load
      ∧ (fine_env cg).obstacle = Obstacle.value
      ∧ (fine_env cg).support_point = fine_point :=
  ⟨rfl, rfl, rfl, rfl⟩

/-- What a pass of the loop records for an unknown that passes the test on
the vectors the update of that pass reads. -/
theorem loop_state_succ_marked (env : Env) (hc : env.Conforming) (i k : Nat)
    (hk : k < env.n_dofs)
    (hp : passes env (residual_update env (solve_phase env (loop_state env i))) k) :
    (loop_state env (i + 1)).active_set k = 1
      ∧ (k ∉ env.boundary_dofs
        → (loop_state env (i + 1)).constraints.lines k
            = some (env.obstacle (env.support_point k))) := by
  obtain ⟨v1, v2, _⟩ := loop_state_succ_vectors env i
  have hm := active_set_scan_marks env hc _ k hk hp
  refine ⟨?_, fun hnb => ?_⟩
  · rw [v2, (projection_active_set_vectors env _).1]
    exact hm.2.1
  · rw [v1, projection_active_set_lines, if_neg hnb]
    exact hm.2.2.2

theorem fine_first_marks :
    (loop_state (fine_env lagging_cg) 1).active_set 6 = 1
      ∧ (loop_state (fine_env lagging_cg) 1).constraints.lines 6 = some (-2 / 5) := by
  have hp : passes (fine_env lagging_cg)
      (residual_update (fine_env lagging_cg)
        (solve_phase (fine_env lagging_cg) (loop_state (fine_env lagging_cg) 0))) 6 := by
    unfold passes
    constructor
    · rw [residual_update_solution, loop_state_zero, fine_first_solve,
        (fine_env_fields _).2.2.1, (fine_env_fields _).2.2.2]
      decide!
    · rw [← (loop_state_succ_vectors _ 0).2.2.2.1, fine_first_residual 6 (by decide)]
      norm_num
  obtain ⟨h1, h2⟩ := loop_state_succ_marked (fine_env lagging_cg) (fine_env_conforming _) 0 6
    (by decide) hp
  refine ⟨h1, ?_⟩
  rw [h2 (by decide), (fine_env_fields _).2.2.1, (fine_env_fields _).2.2.2]
  decide!

theorem fine_first_not_below :
    ¬ below_tolerance
      (l2_norm_sq (fine_env lagging_cg).n_dofs
        (loop_state (fine_env lagging_cg) 1).resid_vector) := by
  intro hb
  have hge := l2_norm_sq_ge (fine_env lagging_cg).n_dofs
    (loop_state (fine_env lagging_cg) 1).resid_vector 12 (by decide)
  rw [fine_first_residual 12 (by decide)] at hge
  unfold below_tolerance at hb
  norm_num at hge
  linarith

/-- The two cases of an unknown at the end of a pass of the loop: marked,
reset to `0` and at or below the obstacle in the solved vector with a residual
entry within the guard; or unmarked, unchanged and failing the test. -/
theorem loop_state_succ_cases (env : Env) (hc : env.Conforming) (i k : Nat)
    (hk : k < env.n_dofs) :
    ((loop_state env (i + 1)).active_set k = 1 ∧ (loop_state env (i + 1)).solution k = 0
        ∧ (loop_state env (i + 1)).tmp_solution k ≤ env.obstacle (env.support_point k)
        ∧ (loop_state env (i + 1)).resid_vector k ≥ -(1 / 10 ^ 15))
      ∨ ((loop_state env (i + 1)).active_set k = 0
        ∧ (loop_state env (i + 1)).solution k = (loop_state env (i + 1)).tmp_solution k
        ∧ ¬ ((loop_state env (i + 1)).tmp_solution k ≤ env.obstacle (env.support_point k)
            ∧ (loop_state env (i + 1)).resid_vector k ≥ -(1 / 10 ^ 15))) := by
  obtain ⟨_, v2, v3, v4, v5⟩ := loop_state_succ_vectors env i
  rw [v2, v3, v4, v5, (projection_active_set_vectors env _).1,
    (projection_active_set_vectors env _).2.1]
  have hinv := (active_set_scan_inv env hc
    (residual_update env (solve_phase env (loop_state env i)))).2 k
  have hmark := active_set_scan_marks env hc
    (residual_update env (solve_phase env (loop_state env i))) k hk
  rcases hinv with hu | hm
  · right
    refine ⟨hu.1, hu.2.1, fun hp => ?_⟩
    have h1 := (hmark hp).2.1
    rw [hu.1] at h1
    exact absurd h1 (by norm_num)
  · left
    exact ⟨hm.2.1, hm.2.2.1, hm.1.1, hm.1.2⟩

theorem run_is_pass_end (env : Env) (hn : 0 < env.n_dofs) :
    ∃ j, j < env.n_dofs ∧ run env = loop_state env (j + 1) := by
  obtain ⟨m, hm1, hm2, _, _, hm5⟩ := run_spec env
  have := hm5 hn
  exact ⟨m - 1, by omega, by rw [hm2]; congr 1; omega⟩

/-- A marked unknown that is not on the boundary is constrained to the
obstacle value. -/
theorem projection_marked_lines (env : Env) (hc : env.Conforming) (st : Step4) (k : Nat)
    (ha : (projection_active_set env st).active_set k = 1) (hnb : k ∉ env.boundary_dofs) :
    (projection_active_set env st).constraints.lines k
      = some (env.obstacle (env.support_point k)) := by
  rw [projection_active_set_lines, if_neg hnb]
  rw [(projection_active_set_vectors env st).1] at ha
  rcases (active_set_scan_inv env hc st).2 k with hu | hm
  · rw [hu.1] at ha
    exact absurd ha (by norm_num)
  · exact hm.2.2.2

theorem loop_state_marked_lines (env : Env) (hc : env.Conforming) (j k : Nat)
    (ha : (loop_state env j).active_set k = 1) (hnb : k ∉ env.boundary_dofs) :
    (loop_state env j).constraints.lines k = some (env.obstacle (env.support_point k)) := by
  cases j with
  | zero => exact projection_marked_lines env hc (seed_entry env) k ha hnb
  | succ i =>
    obtain ⟨v1, v2, _⟩ := loop_state_succ_vectors env i
    rw [v1]
    rw [v2] at ha
    exact projection_marked_lines env hc _ k ha hnb

theorem ConstraintMatrix.eq_of_lines (c1 c2 : ConstraintMatrix) (h : ∀ k, c1.lines k = c2.lines k) :
    c1 = c2 := by
  cases c1
  cases c2
  simp only [ConstraintMatrix.mk.injEq]
  funext k
  exact h k

/-- The line that the scan holds for an unknown is determined by its
indicator. -/
theorem active_set_scan_lines (env : Env) (hc : env.Conforming) (st : Step4) (k : Nat) :
    (active_set_scan env st).constraints.lines k
      = if (active_set_scan env st).active_set k = 1
        then some (env.obstacle (env.support_point k)) else none := by
  rcases (active_set_scan_inv env hc st).2 k with hu | hm
  · rw [hu.2.2, hu.1]
    norm_num
  · rw [hm.2.2.2, hm.2.1]
    simp

/-- The solution entry after the scan is determined by the indicator and the
entry value. -/
theorem active_set_scan_solution (env : Env) (st : Step4) (k : Nat) :
    (active_set_scan env st).solution k
      = if (active_set_scan env st).active_set k = 1 then 0 else st.solution k := by
  rcases active_set_scan_reset env st k with h | h
  · rw [h.1, h.2]
    norm_num
  · rw [h.1, h.2]
    simp

/-- An index that is not an unknown of a conforming discretization is never
visited by the scan. -/
theorem active_set_scan_outside (env : Env) (hc : env.Conforming) (st : Step4) (k : Nat)
    (hk : env.n_dofs ≤ k) :
    (active_set_scan env st).constraints.lines k = none
      ∧ (active_set_scan env st).active_set k = 0 := by
  unfold active_set_scan
  apply foldl_preserves (fun s : Step4 => s.constraints.lines k = none ∧ s.active_set k = 0)
  · intro b cell hcell hb
    unfold visit_cell
    apply foldl_preserves
      (fun s : Step4 => s.constraints.lines k = none ∧ s.active_set k = 0) _ _ _ b hb
    intro b1 v hv hb1
    have hlt := (hc.1 cell hcell v (List.mem_range.mp hv)).2
    have hne : k ≠ cell.vertex_dof_index v := by omega
    simp only [visit_vertex]
    split
    · exact ⟨by simpa [add_line_set_inhomogeneity_lines, hne] using hb1.1,
        by simpa [Vector.set, hne] using hb1.2⟩
    · exact hb1
  · exact ⟨rfl, rfl⟩

theorem seed_solution_zero (env : Env) (k : Nat) : (seed env).solution k = 0 := by
  show (projection_active_set env (seed_entry env)).solution k = 0
  rw [(projection_active_set_vectors env _).2.1, active_set_scan_solution]
  split <;> rfl

/-- When the obstacle is negative at every unknown off the boundary, the seed
update leaves the constraint set of the boundary values alone. -/
theorem seed_constraints_of_negative (env : Env) (hc : env.Conforming)
    (h : ∀ k < env.n_dofs, k ∉ env.boundary_dofs → env.obstacle (env.support_point k) < 0) :
    (seed env).constraints = boundary_constraints env := by
  apply ConstraintMatrix.eq_of_lines
  intro k
  show (projection_active_set env (seed_entry env)).constraints.lines k = _
  rw [projection_active_set_lines, boundary_constraints_lines]
  by_cases hb : k ∈ env.boundary_dofs
  · rw [if_pos hb, if_pos hb]
  · rw [if_neg hb, if_neg hb]
    by_cases hk : k < env.n_dofs
    · rw [active_set_scan_lines env hc, if_neg]
      rw [active_set_scan_iff env hc _ k hk]
      intro hp
      have h0 : (0 : ℚ) ≤ env.obstacle (env.support_point k) := hp.1
      have := h k hk hb
      linarith
    · exact (active_set_scan_outside env hc _ k (not_lt.mp hk)).1

/-- When the first solve returns a vector that satisfies the reference
system exactly, the residual of the first pass is `0` at every unknown. -/
theorem first_residual_zero (env : Env)
    (hexact : ∀ k < env.n_dofs,
      ∑ j in Finset.range env.n_dofs,
          env.stiffness (boundary_constraints env) k j * (solve_phase env (seed env)).solution j
        = env.load (boundary_constraints env) k)
    (k : Nat) (hk : k < env.n_dofs) :
    (loop_state env 1).resid_vector k = 0 := by
  rw [(loop_state_succ_vectors env 0).2.2.2.1, loop_state_zero,
    residual_update_entry env _ k hk, (solve_phase_complete env _).1,
    (solve_phase_complete env _).2, (seed_complete env).1, (seed_complete env).2,
    hexact k hk]
  simp

theorem with_obstacle_conforming (obstacle : Point → ℚ) : (with_obstacle obstacle).Conforming :=
  grid_env_conforming exact_cg

theorem first_solve_unconstrained (env : Env)
    (hcons : (seed env).constraints = boundary_constraints env) :
    (solve_phase env (seed env)).solution = unconstrained_solution env := by
  have hz : (seed env).solution = fun _ => 0 := by
    funext k
    exact seed_solution_zero env k
  rw [(solve_phase_system env _).2.2.1, hcons, hz]
  rfl

/-- The constraint set with which a pass of the loop begins, in terms of the
boundary indices and the indicator. -/
theorem loop_state_lines (env : Env) (hc : env.Conforming) (j k : Nat) :
    (loop_state env j).constraints.lines k
      = if k ∈ env.boundary_dofs then some (env.boundary_values (env.support_point k))
        else if (loop_state env j).active_set k = 1
          then some (env.obstacle (env.support_point k)) else none := by
  cases j with
  | zero =>
    show (projection_active_set env (seed_entry env)).constraints.lines k
      = if k ∈ env.boundary_dofs then some (env.boundary_values (env.support_point k))
        else if (projection_active_set env (seed_entry env)).active_set k = 1
          then some (env.obstacle (env.support_point k)) else none
    rw [projection_active_set_lines, (projection_active_set_vectors env _).1,
      active_set_scan_lines env hc]
  | succ i =>
    obtain ⟨v1, v2, _⟩ := loop_state_succ_vectors env i
    rw [v1, v2, projection_active_set_lines, (projection_active_set_vectors env _).1,
      active_set_scan_lines env hc]

theorem solve_phase_prescribed (env : Env) (st : Step4) (j : Nat) (value : ℚ)
    (h : st.constraints.lines j = some value) :
    (solve_phase env st).solution j = value := by
  rw [(solve_phase_system env st).2.2.1]
  simp only [ConstraintMatrix.distribute, h]

theorem l2_norm_sq_le (n : Nat) (v : Vector) (e : ℚ) (h : ∀ k < n, v k ^ 2 ≤ e) :
    l2_norm_sq n v ≤ n * e := by
  unfold l2_norm_sq
  have := Finset.sum_le_card_nsmul (Finset.range n) (fun k => v k ^ 2) e
    (fun k hk => h k (Finset.mem_range.mp hk))
  simpa using this

theorem guard_sum_below (n : Nat) (hn : n < 2 ^ 32) (x : ℚ)
    (hx : x ≤ (n : ℚ) * (1 / 10 ^ 15) ^ 2) : below_tolerance x := by
  unfold below_tolerance
  have h1 : (n : ℚ) < 2 ^ 32 := by exact_mod_cast hn
  have h2 : (n : ℚ) * (1 / 10 ^ 15) ^ 2 < (1 / 10 ^ 10) ^ 2 := by
    have : (n : ℚ) * (1 / 10 ^ 15) ^ 2 < 2 ^ 32 * (1 / 10 ^ 15) ^ 2 := by
      apply mul_lt_mul_of_pos_right h1
      positivity
    refine lt_trans this ?_
    norm_num
  linarith

/-- The residual entry at the end of a pass under the contracts of assembly
and solver: `0` in the row of a boundary index and in a row that was free in
the solve. -/
theorem pass_residual_zero (env : Env) (hc : env.Conforming) (he : env.Eliminates) (i : Nat)
    (hexact : ∀ k < env.n_dofs,
      ∑ j in Finset.range env.n_dofs,
          (solve_phase env (loop_state env i)).system_matrix k j
            * (solve_phase env (loop_state env i)).solution j
        = (solve_phase env (loop_state env i)).system_rhs k)
    (k : Nat) (hk : k < env.n_dofs)
    (hfree : k ∈ env.boundary_dofs ∨ (loop_state env i).constraints.lines k = none) :
    (loop_state env (i + 1)).resid_vector k = 0 := by
  have hsat : ∀ j value, (loop_state env i).constraints.lines j = some value →
      (solve_phase env (loop_state env i)).solution j = value :=
    fun j value h => solve_phase_prescribed env _ j value h
  have hsatb : ∀ j value, (boundary_constraints env).lines j = some value →
      (solve_phase env (loop_state env i)).solution j = value := by
    intro j value h
    rw [boundary_constraints_lines] at h
    by_cases hb : j ∈ env.boundary_dofs
    · rw [if_pos hb] at h
      apply hsat
      rw [loop_state_lines env hc, if_pos hb]
      exact h
    · rw [if_neg hb] at h
      exact absurd h (by simp)
  rw [(loop_state_succ_vectors env i).2.2.2.1, residual_update_entry env _ k hk,
    (solve_phase_complete env _).1, (solve_phase_complete env _).2,
    (loop_state_complete env i).1, (loop_state_complete env i).2]
  by_cases hb : k ∈ env.boundary_dofs
  · have hl : (boundary_constraints env).lines k
        = some (env.boundary_values (env.support_point k)) := by
      rw [boundary_constraints_lines, if_pos hb]
    rw [he.1 _ _ k _ hk hl (hsatb k _ hl)]
    simp
  · have hnone : (loop_state env i).constraints.lines k = none := by
      rcases hfree with h | h
      · exact absurd h hb
      · exact h
    have hbn : (boundary_constraints env).lines k = none := by
      rw [boundary_constraints_lines, if_neg hb]
    have hfold := he.2 (boundary_constraints env) (loop_state env i).constraints
      (solve_phase env (loop_state env i)).solution k hk hbn hnone hsatb hsat
    have hex := hexact k hk
    rw [(solve_phase_system env _).1, (solve_phase_system env _).2.1] at hex
    rw [hfold, hex]
    simp

theorem loop_state_succ_resid_nonpos (env : Env) (i k : Nat) (hk : k < env.n_dofs) :
    (loop_state env (i + 1)).resid_vector k ≤ 0 := by
  rw [(loop_state_succ_vectors env i).2.2.2.1, residual_update_entry env _ k hk]
  exact min_le_left _ _

theorem grid_eliminates (env : Env) (hs : env.stiffness = grid_stiffness)
    (hl : env.load = grid_load) : env.Eliminates := by
  constructor
  · intro c u k value hk hline hu
    rw [hs, hl]
    show ∑ j in Finset.range env.n_dofs,
      (if k = j then (if c.is_constrained k then 1 else 8 / 3) else 0) * u j = grid_load c k
    rw [diagonal_row_sum _ k hk]
    simp [grid_load, ConstraintMatrix.is_constrained, hline, hu]
  · intro c1 c2 u k hk h1 h2 _ _
    rw [hs, hl]
    show ∑ j in Finset.range env.n_dofs,
        (if k = j then (if c1.is_constrained k then 1 else 8 / 3) else 0) * u j - grid_load c1 k
      = ∑ j in Finset.range env.n_dofs,
        (if k = j then (if c2.is_constrained k then 1 else 8 / 3) else 0) * u j - grid_load c2 k
    rw [diagonal_row_sum _ k hk, diagonal_row_sum _ k hk]
    simp [grid_load, ConstraintMatrix.is_constrained, h1, h2]

/-! ## The claims -/

/-- C1 (complementarity test). On a conforming discretization, for every
entry state and every unknown `k`: after `projection_active_set` the indicator
`active_set (k)` is `1` exactly when `u(k) ≤ ψ(x_k)` and `r(k) ≥ -1e-15` held
on entry, the scan recorded a constraint line for `k` exactly in that case,
and otherwise `active_set (k)` is `0`; repeated visits of a vertex and the
reset of `u(k)` between them do not change this. -/
theorem projection_active_set_complementarity (env : Env) (hc : env.Conforming)
    (st : Step4) (k : Nat) (hk : k < env.n_dofs) :
    ((projection_active_set env st).active_set k = 1
        ↔ (st.solution k ≤ env.obstacle (env.support_point k)
            ∧ st.resid_vector k ≥ -(1 / 10 ^ 15)))
      ∧ ((active_set_scan env st).constraints.is_constrained k = true
        ↔ (st.solution k ≤ env.obstacle (env.support_point k)
            ∧ st.resid_vector k ≥ -(1 / 10 ^ 15)))
      ∧ (¬ (st.solution k ≤ env.obstacle (env.support_point k)
            ∧ st.resid_vector k ≥ -(1 / 10 ^ 15))
          → (projection_active_set env st).active_set k = 0) := by
  have hinv := (active_set_scan_inv env hc st).2 k
  have hmark := active_set_scan_marks env hc st k hk
  rw [(projection_active_set_vectors env st).1]
  refine ⟨⟨?_, fun hp => (hmark hp).2.1⟩, ⟨?_, fun hp => ?_⟩, ?_⟩
  · intro h1
    rcases hinv with hu | hm
    · rw [hu.1] at h1
      exact absurd h1 (by norm_num)
    · exact hm.1
  · intro h1
    rcases hinv with hu | hm
    · simp [ConstraintMatrix.is_constrained, hu.2.2] at h1
    · exact hm.1
  · simp [ConstraintMatrix.is_constrained, (hmark hp).2.2.2]
  · intro hn
    rcases hinv with hu | hm
    · exact hu.1
    · exact absurd hm.1 hn


theorem projection_active_set_complementarity_witness :
    (grid_env exact_cg).Conforming ∧ 4 < (grid_env exact_cg).n_dofs
      ∧ (projection_active_set (grid_env exact_cg) below_state).active_set 4 = 1 :=
  ⟨grid_env_conforming _, by decide,
    (projection_active_set_complementarity (grid_env exact_cg) (grid_env_conforming _)
      below_state 4 (by decide)).1.2
      ⟨by norm_num [below_state, grid_env, Obstacle.value, grid_point],
       by norm_num [below_state, Step4.init]⟩⟩

/-- C2 (residual update). In every pass `i` of the outer loop, after the
residual pass every entry `k` of the residual is
`min (0, (A_full u - b_full)(k))`, where `u` is the vector that `solve` has
just returned and `A_full`, `b_full` are the matrix and right hand side
assembled once before the loop under the boundary constraints alone; in
particular `r(k) ≤ 0`. The update of the active set that follows keeps this
residual, with `u` kept in `tmp_solution`. -/
theorem residual_update_clamped (env : Env) (i k : Nat) (hk : k < env.n_dofs) :
    (residual_update env (solve_phase env (loop_state env i))).resid_vector k
        = min 0 (∑ j in Finset.range env.n_dofs,
            env.stiffness (boundary_constraints env) k j
              * (solve_phase env (loop_state env i)).solution j
          - env.load (boundary_constraints env) k)
      ∧ (residual_update env (solve_phase env (loop_state env i))).resid_vector k ≤ 0
      ∧ (loop_state env (i + 1)).resid_vector
          = (residual_update env (solve_phase env (loop_state env i))).resid_vector
      ∧ (loop_state env (i + 1)).tmp_solution
          = (solve_phase env (loop_state env i)).solution := by
  have h := residual_update_entry env (solve_phase env (loop_state env i)) k hk
  rw [(solve_phase_complete env _).1, (solve_phase_complete env _).2,
    (loop_state_complete env i).1, (loop_state_complete env i).2] at h
  refine ⟨h, ?_, ?_, ?_⟩
  · rw [h]
    exact min_le_left _ _
  · obtain ⟨h1, _⟩ := projection_active_set_fields env
      ((residual_update env (solve_phase env (loop_state env i))).print .update_active_set)
    simp only [loop_state, outer_iteration, update_phase, output_results, Step4.print] at *
    exact h1
  · obtain ⟨_, _, _, h4, _⟩ := projection_active_set_fields env
      ((residual_update env (solve_phase env (loop_state env i))).print .update_active_set)
    simp only [loop_state, outer_iteration, update_phase, output_results, Step4.print] at *
    rw [h4]
    simp [residual_update, solve_phase]


theorem residual_update_clamped_witness :
    4 < (grid_env stalled_cg).n_dofs
      ∧ (residual_update (grid_env stalled_cg)
          (solve_phase (grid_env stalled_cg)
            (loop_state (grid_env stalled_cg) 0))).resid_vector 4 ≤ 0 :=
  ⟨by decide, (residual_update_clamped (grid_env stalled_cg) 0 4 (by decide)).2.1⟩

/-- C3 (boundary precedence). On a conforming discretization, for every
unknown `k` that is a boundary index and passes the complementarity test, the
scan first records the obstacle value `ψ(x_k)` for `k`, and the finalized
constraint set of `projection_active_set` prescribes the boundary value at
`x_k` instead, which is `0` for the `BoundaryValues` of the source: the
boundary constraints are applied after the active-set constraints and
overwrite them. -/
theorem boundary_precedence (env : Env) (hc : env.Conforming) (st : Step4) (k : Nat)
    (hk : k < env.n_dofs) (hb : k ∈ env.boundary_dofs)
    (hu : st.solution k ≤ env.obstacle (env.support_point k))
    (hr : st.resid_vector k ≥ -(1 / 10 ^ 15)) :
    (active_set_scan env st).constraints.lines k = some (env.obstacle (env.support_point k))
      ∧ (projection_active_set env st).constraints.lines k
          = some (env.boundary_values (env.support_point k))
      ∧ (env.boundary_values = BoundaryValues.value
          → (projection_active_set env st).constraints.lines k = some 0) := by
  have hm := active_set_scan_marks env hc st k hk ⟨hu, hr⟩
  have hl := projection_active_set_lines env st k
  rw [if_pos hb] at hl
  refine ⟨hm.2.2.2, hl, fun hbv => ?_⟩
  rw [hl, hbv]
  rfl


theorem boundary_precedence_witness :
    (grid_env exact_cg).Conforming ∧ 1 ∈ (grid_env exact_cg).boundary_dofs
      ∧ (active_set_scan (grid_env exact_cg) below_state).constraints.lines 1 = some (-3 / 5)
      ∧ (projection_active_set (grid_env exact_cg) below_state).constraints.lines 1
          = some 0 := by
  have h := boundary_precedence (grid_env exact_cg) (grid_env_conforming _) below_state 1
    (by decide) (by decide) (by decide!) (by decide!)
  refine ⟨grid_env_conforming _, by decide, ?_, h.2.2 rfl⟩
  rw [h.1]
  decide!

/-- C4 (constraint contents). On a conforming discretization, for every entry
state the finalized constraint set of `projection_active_set` prescribes
`ψ(x_k)` for every unknown `k` that is marked active and is not a boundary
index, prescribes the boundary value for every boundary index, and has no line
for an unknown that is neither marked active nor a boundary index. -/
theorem constraint_contents (env : Env) (hc : env.Conforming) (st : Step4) (k : Nat) :
    ((projection_active_set env st).active_set k = 1 → k ∉ env.boundary_dofs
        → (projection_active_set env st).constraints.lines k
            = some (env.obstacle (env.support_point k)))
      ∧ (k ∈ env.boundary_dofs
        → (projection_active_set env st).constraints.lines k
            = some (env.boundary_values (env.support_point k)))
      ∧ ((projection_active_set env st).active_set k ≠ 1 → k ∉ env.boundary_dofs
        → (projection_active_set env st).constraints.lines k = none
          ∧ (projection_active_set env st).constraints.is_constrained k = false) := by
  have hinv := (active_set_scan_inv env hc st).2 k
  have hl := projection_active_set_lines env st k
  rw [(projection_active_set_vectors env st).1]
  refine ⟨fun ha hnb => ?_, fun hb => ?_, fun ha hnb => ?_⟩
  · rw [if_neg hnb] at hl
    rcases hinv with hu | hm
    · rw [hu.1] at ha
      exact absurd ha (by norm_num)
    · rw [hl, hm.2.2.2]
  · rw [if_pos hb] at hl
    exact hl
  · rw [if_neg hnb] at hl
    rcases hinv with hu | hm
    · simp [ConstraintMatrix.is_constrained, hl, hu.2.2]
    · exact absurd hm.2.1 ha


theorem constraint_contents_witness :
    (grid_env exact_cg).Conforming
      ∧ (projection_active_set (grid_env exact_cg) below_state).constraints.lines 4
          = some ((grid_env exact_cg).obstacle ((grid_env exact_cg).support_point 4)) :=
  ⟨grid_env_conforming _,
    (constraint_contents (grid_env exact_cg) (grid_env_conforming _) below_state 4).1
      (by decide!) (by decide)⟩

/-- C5 (reset and frame). After `projection_active_set`, `u(k) = 0` for every
unknown `k` marked active, `u(k)` is its entry value for every unknown not
marked active, and every entry of the residual vector is its entry value. -/
theorem projection_active_set_reset_frame (env : Env) (st : Step4) (k : Nat) :
    ((projection_active_set env st).active_set k = 1
        → (projection_active_set env st).solution k = 0)
      ∧ ((projection_active_set env st).active_set k ≠ 1
        → (projection_active_set env st).solution k = st.solution k)
      ∧ (projection_active_set env st).resid_vector k = st.resid_vector k := by
  obtain ⟨ha, hs, hr⟩ := projection_active_set_vectors env st
  rw [ha, hs, hr]
  refine ⟨fun h1 => ?_, fun h1 => ?_, rfl⟩
  · rcases active_set_scan_reset env st k with h | h
    · rw [h.1] at h1
      exact absurd h1 (by norm_num)
    · exact h.2
  · rcases active_set_scan_reset env st k with h | h
    · exact h.2
    · exact absurd h.1 h1

/-- C6 (rebuild from scratch). For two entry states that agree on the
solution vector and on the residual vector, whatever their previous
constraint sets and active-set indicators are, `projection_active_set`
produces the same constraint set, the same indicator and the same solution
vector; replacing the previous constraint set and indicator of a state changes
nothing in the state it returns; and a pass of the outer loop does not depend
on the indicator it starts with. -/
theorem projection_active_set_from_scratch (env : Env) (s1 s2 : Step4)
    (hu : s1.solution = s2.solution) (hr : s1.resid_vector = s2.resid_vector) :
    (projection_active_set env s1).constraints = (projection_active_set env s2).constraints
      ∧ (projection_active_set env s1).active_set = (projection_active_set env s2).active_set
      ∧ (projection_active_set env s1).solution = (projection_active_set env s2).solution
      ∧ (∀ (c : ConstraintMatrix) (a : Vector),
          projection_active_set env { s1 with constraints := c, active_set := a }
            = projection_active_set env s1)
      ∧ ∀ (i : Nat) (a : Vector),
          outer_iteration env i { s1 with active_set := a } = outer_iteration env i s1 := by
  obtain ⟨h1, h2, h3, _⟩ := active_set_scan_related env s1 s2 hu hr
  refine ⟨?_, h3, h2, fun c a => ?_, fun i a => ?_⟩
  · simp only [projection_active_set, h1]
  · simp only [projection_active_set, active_set_scan, ConstraintMatrix.clear]
  · simp only [outer_iteration, update_phase, projection_active_set, active_set_scan,
      residual_update, solve_phase, solve, assemble_system, Step4.print, output_results]


theorem projection_active_set_from_scratch_witness :
    (projection_active_set (grid_env exact_cg)
        { below_state with
          constraints := ⟨fun _ => some 7⟩, active_set := fun _ => 1 }).constraints
      = (projection_active_set (grid_env exact_cg) below_state).constraints
    ∧ (projection_active_set (grid_env exact_cg)
        { below_state with
          constraints := ⟨fun _ => some 7⟩, active_set := fun _ => 1 }).active_set
      = (projection_active_set (grid_env exact_cg) below_state).active_set :=
  ⟨(projection_active_set_from_scratch (grid_env exact_cg)
      { below_state with constraints := ⟨fun _ => some 7⟩, active_set := fun _ => 1 }
      below_state rfl rfl).1,
   (projection_active_set_from_scratch (grid_env exact_cg)
      { below_state with constraints := ⟨fun _ => some 7⟩, active_set := fun _ => 1 }
      below_state rfl rfl).2.1⟩

/-- C7 (convergence check). If pass `j` is the first pass whose clamped
residual has Euclidean norm below `1e-10`, then `run` ends in the state at
the end of pass `j`. If the norm is at least `1e-10` in every pass up to `j`
and `j` is not the last pass the bound allows, the loop goes on: `run` ends in
the state of a later loop counter, and pass `j + 1` assembles matrix and right
hand side under the constraint set that `projection_active_set` built at the
end of pass `j`. -/
theorem run_convergence_check (env : Env) (j : Nat) (hj : j < env.n_dofs)
    (hprev : ∀ i < j,
      ¬ below_tolerance (l2_norm_sq env.n_dofs (loop_state env (i + 1)).resid_vector)) :
    (below_tolerance (l2_norm_sq env.n_dofs (loop_state env (j + 1)).resid_vector)
        → run env = loop_state env (j + 1))
      ∧ (¬ below_tolerance (l2_norm_sq env.n_dofs (loop_state env (j + 1)).resid_vector)
        → j + 1 < env.n_dofs
        → ∃ m, j + 2 ≤ m ∧ m ≤ env.n_dofs ∧ run env = loop_state env m
            ∧ (∀ a b, (solve_phase env (loop_state env (j + 1))).system_matrix a b
                = env.stiffness (loop_state env (j + 1)).constraints a b)
            ∧ (∀ a, (solve_phase env (loop_state env (j + 1))).system_rhs a
                = env.load (loop_state env (j + 1)).constraints a)
            ∧ (loop_state env (j + 1)).constraints
                = (projection_active_set env
                    ((residual_update env (solve_phase env (loop_state env j))).print
                      .update_active_set)).constraints) := by
  obtain ⟨m, hm1, hm2, hm3, hm4, hm5⟩ := run_spec env
  have hnot : ∀ p, 0 < p → p ≤ j →
      ¬ below_tolerance (l2_norm_sq env.n_dofs (loop_state env p).resid_vector) := by
    intro p hp0 hpj
    obtain ⟨i, rfl⟩ : ∃ i, p = i + 1 := ⟨p - 1, by omega⟩
    exact hprev i (by omega)
  have hpos : 0 < m := hm5 (by omega)
  constructor
  · intro hb
    have hle : m ≤ j + 1 := by
      by_contra hgt
      exact hm3 (j + 1) (by omega) (by omega) hb
    have hge : j + 1 ≤ m := by
      by_contra hlt
      exact hnot m hpos (by omega) (hm4 (by omega)).2
    rw [hm2, le_antisymm hle hge]
  · intro hnb hj1
    have hge : j + 2 ≤ m := by
      by_contra hlt
      have hmn : m < env.n_dofs := by omega
      by_cases hmj : m ≤ j
      · exact hnot m hpos hmj (hm4 hmn).2
      · have : m = j + 1 := by omega
        rw [this] at hm4
        exact hnb (hm4 hj1).2
    refine ⟨m, hge, hm1, hm2, ?_, ?_, ?_⟩
    · intro a b
      simp [solve_phase, solve, assemble_system, Step4.print]
    · intro a
      simp [solve_phase, solve, assemble_system, Step4.print]
    · simp [loop_state, outer_iteration, update_phase, output_results, Step4.print]


theorem run_convergence_check_witness :
    run (grid_env exact_cg) = loop_state (grid_env exact_cg) 1
      ∧ ∃ m, 2 ≤ m ∧ m ≤ 9
          ∧ run (grid_env stalled_cg) = loop_state (grid_env stalled_cg) m := by
  constructor
  · exact (run_convergence_check (grid_env exact_cg) 0 (by decide)
      (fun i hi => absurd hi (Nat.not_lt_zero i))).1 (by decide!)
  · obtain ⟨m, h1, h2, h3, _⟩ := (run_convergence_check (grid_env stalled_cg) 0 (by decide)
      (fun i hi => absurd hi (Nat.not_lt_zero i))).2 (by decide!) (by decide)
    exact ⟨m, h1, h2, h3⟩

/-- C8 (hard stop). For every discretization, solver and data, `run` performs
at most `n_dofs` passes of the outer loop: it ends in the state of a loop
counter `m ≤ n_dofs`, having written `m` output files and printed `m` lines
`Assemble System:` and `m` lines `Solve System:`. -/
theorem run_hard_stop (env : Env) :
    ∃ m, m ≤ env.n_dofs ∧ run env = loop_state env m
      ∧ (run env).files.length = m
      ∧ ((run env).cout.filter Line.is_assemble).length = m
      ∧ ((run env).cout.filter Line.is_solve).length = m := by
  obtain ⟨m, hm1, hm2, _⟩ := run_spec env
  refine ⟨m, hm1, hm2, ?_, ?_, ?_⟩
  · rw [hm2, loop_state_files_length]
  · rw [hm2, loop_state_count_assemble]
  · rw [hm2, loop_state_count_solve]

/-- C9, as amended (no report at the iteration bound). When the residual norm
stays at or above `1e-10` in all `n_dofs` passes, `run` ends after `n_dofs`
passes and prints nothing about it: every line of its console output is a
set-up line or one of the lines of an ordinary pass, and the last line is the
residual line of pass `n_dofs - 1`, whose value is not below the tolerance.
The last computed solution is kept in `tmp_solution` and is the displacement
of the last output file. -/
theorem run_at_iteration_bound (env : Env) (hn : 0 < env.n_dofs)
    (hnever : ∀ p, 0 < p → p ≤ env.n_dofs →
      ¬ below_tolerance (l2_norm_sq env.n_dofs (loop_state env p).resid_vector)) :
    run env = loop_state env env.n_dofs
      ∧ (run env).files.length = env.n_dofs
      ∧ (∀ l ∈ (run env).cout, l.label ∈ pass_labels ∨ l ∈ (seed env).cout)
      ∧ (run env).cout.getLast?
          = some (.residuum (env.n_dofs - 1) (l2_norm_sq env.n_dofs (run env).resid_vector))
      ∧ ¬ below_tolerance (l2_norm_sq env.n_dofs (run env).resid_vector)
      ∧ (run env).tmp_solution
          = (solve_phase env (loop_state env (env.n_dofs - 1))).solution
      ∧ (run env).files.getLast?.map OutputFile.Displacement
          = some (run env).tmp_solution := by
  obtain ⟨m, hm1, hm2, _, hm4, hm5⟩ := run_spec env
  have hpos : 0 < m := hm5 hn
  have hm : m = env.n_dofs := by
    by_contra hne
    have hlt : m < env.n_dofs := by omega
    exact hnever m hpos hm1 (hm4 hlt).2
  rw [hm] at hm2
  have hstep : loop_state env env.n_dofs
      = outer_iteration env (env.n_dofs - 1) (loop_state env (env.n_dofs - 1)) := by
    obtain ⟨q, hq⟩ : ∃ q, env.n_dofs = q + 1 := ⟨env.n_dofs - 1, by omega⟩
    rw [hq]
    rfl
  refine ⟨hm2, ?_, ?_, ?_, ?_, ?_, ?_⟩
  · rw [hm2, loop_state_files_length]
  · rw [hm2]
    exact loop_state_labels env _
  · rw [hm2, hstep]
    simp [outer_iteration_cout, pass_lines]
  · rw [hm2]
    exact hnever _ hn (le_refl _)
  · rw [hm2, hstep]
    simp [outer_iteration_tmp_solution]
  · rw [hm2, hstep]
    simp [outer_iteration_files]


theorem run_at_iteration_bound_witness :
    (run (grid_env stalled_cg)).files.length = 9
      ∧ (run (grid_env stalled_cg)).cout.getLast? = some (.residuum 8 (64 / 9)) := by
  have h := run_at_iteration_bound (grid_env stalled_cg) (by decide) stalled_never_below
  refine ⟨h.2.1, ?_⟩
  rw [h.2.2.2.1]
  decide!

/-- C9, counterexample. On the once refined square with a solver that stops
one unit below the exact solution, the residual norm is never below `1e-10`
and `run` performs all nine passes the bound allows; yet every line of its
console output has the text of a line that the run with the exact solver,
which meets the tolerance in its first pass, prints as well: no line reports
that the bound was reached. -/
theorem nonconvergence_not_reported :
    (∀ p, 0 < p → p ≤ 9 →
        ¬ below_tolerance (l2_norm_sq 9 (loop_state (grid_env stalled_cg) p).resid_vector))
      ∧ (run (grid_env stalled_cg)).files.length = 9
      ∧ below_tolerance (l2_norm_sq 9 (run (grid_env exact_cg)).resid_vector)
      ∧ ¬ ∃ l ∈ (run (grid_env stalled_cg)).cout,
          l.label ∉ (run (grid_env exact_cg)).cout.map Line.label := by
  refine ⟨stalled_never_below, by decide!, by decide!, ?_⟩
  decide!

/-- C10, as amended (seed phase). Before the loop the reference system is
assembled under the boundary constraints alone and copied, and nothing is
solved: `run` sets `u` and `r` to `0` at every unknown and calls
`projection_active_set` on that zero vector; the console shows no solve before
the loop, and the loop starts from the state this call leaves. -/
theorem seed_phase (env : Env) :
    (seed_entry env).constraints = boundary_constraints env
      ∧ (seed_entry env).system_matrix_complete = env.stiffness (boundary_constraints env)
      ∧ (seed_entry env).system_rhs_complete = env.load (boundary_constraints env)
      ∧ (seed_entry env).solution = (fun _ => 0)
      ∧ (seed_entry env).resid_vector = (fun _ => 0)
      ∧ seed env = projection_active_set env (seed_entry env)
      ∧ ((seed env).cout.filter Line.is_solve).length = 0
      ∧ run env = outer_loop env env.n_dofs 0 (seed env) := by
  refine ⟨?_, ?_, ?_, rfl, rfl, rfl, ?_, rfl⟩
  · simp [seed_entry, reference_assembly, assemble_system, setup_system, make_grid,
      Step4.print, Step4.init, boundary_constraints, ConstraintMatrix.clear,
      ConstraintMatrix.close]
  · funext i j
    simp [seed_entry, reference_assembly, assemble_system, setup_system, make_grid,
      Step4.print, Step4.init, boundary_constraints, ConstraintMatrix.clear,
      ConstraintMatrix.close]
  · funext i
    simp [seed_entry, reference_assembly, assemble_system, setup_system, make_grid,
      Step4.print, Step4.init, boundary_constraints, ConstraintMatrix.clear,
      ConstraintMatrix.close]
  · simp [seed_cout, Line.is_solve]


/-- C10, counterexample. On the once refined square with the exact solver,
solving the reference system gives `-15/4` at the interior unknown `4`, but
the vector on which `run` calls `projection_active_set` for the first time is
`0` there, and no solve has been reported when the loop starts. -/
theorem seed_not_solved :
    (solve (grid_env exact_cg) (reference_assembly (grid_env exact_cg))).solution 4 = -15 / 4
      ∧ (seed_entry (grid_env exact_cg)).solution 4 = 0
      ∧ ((seed (grid_env exact_cg)).cout.filter Line.is_solve).length = 0 := by
  decide!

/-- C17 (obstacle function). For every point `p` with first coordinate `x`,
`Obstacle::value (p)` is `-0.2` if `x < -0.5`, `-0.4` if `-0.5 ≤ x < 0`,
`-0.6` if `0 ≤ x < 0.5` and `-0.8` otherwise; two points with the same first
coordinate have the same value; at least one and no two of the four cases
apply to a point; and the value does not increase when `x` increases. -/
theorem obstacle_value_steps (p q : Point) :
    (p.1 < -1 / 2 → Obstacle.value p = -1 / 5)
      ∧ (-1 / 2 ≤ p.1 → p.1 < 0 → Obstacle.value p = -2 / 5)
      ∧ (0 ≤ p.1 → p.1 < 1 / 2 → Obstacle.value p = -3 / 5)
      ∧ (¬ p.1 < -1 / 2 → ¬ (-1 / 2 ≤ p.1 ∧ p.1 < 0) → ¬ (0 ≤ p.1 ∧ p.1 < 1 / 2)
          → Obstacle.value p = -4 / 5)
      ∧ (1 / 2 ≤ p.1 → Obstacle.value p = -4 / 5)
      ∧ (p.1 = q.1 → Obstacle.value p = Obstacle.value q)
      ∧ (p.1 < -1 / 2 ∨ (-1 / 2 ≤ p.1 ∧ p.1 < 0) ∨ (0 ≤ p.1 ∧ p.1 < 1 / 2) ∨ 1 / 2 ≤ p.1)
      ∧ ¬ (p.1 < -1 / 2 ∧ -1 / 2 ≤ p.1) ∧ ¬ (p.1 < -1 / 2 ∧ 0 ≤ p.1)
      ∧ ¬ (p.1 < -1 / 2 ∧ 1 / 2 ≤ p.1) ∧ ¬ (p.1 < 0 ∧ 0 ≤ p.1) ∧ ¬ (p.1 < 0 ∧ 1 / 2 ≤ p.1)
      ∧ ¬ (p.1 < 1 / 2 ∧ 1 / 2 ≤ p.1)
      ∧ (p.1 ≤ q.1 → Obstacle.value q ≤ Obstacle.value p) := by
  refine ⟨?_, ?_, ?_, ?_, ?_, ?_, ?_, ?_, ?_, ?_, ?_, ?_, ?_, ?_⟩
  · intro h
    rw [obstacle_value_eq, if_pos h]
  · intro h1 h2
    rw [obstacle_value_eq, if_neg (not_lt.mpr h1), if_pos h2]
  · intro h1 h2
    rw [obstacle_value_eq, if_neg (by linarith), if_neg (not_lt.mpr h1), if_pos h2]
  · intro h1 h2 h3
    have g2 : ¬ p.1 < 0 := fun h => h2 ⟨not_lt.mp h1, h⟩
    have g3 : ¬ p.1 < 1 / 2 := fun h => h3 ⟨not_lt.mp g2, h⟩
    rw [obstacle_value_eq, if_neg h1, if_neg g2, if_neg g3]
  · intro h1
    rw [obstacle_value_eq, if_neg (by linarith), if_neg (by linarith), if_neg (not_lt.mpr h1)]
  · intro h
    rw [obstacle_value_eq, obstacle_value_eq, h]
  · by_cases h1 : p.1 < -1 / 2
    · exact Or.inl h1
    · by_cases h2 : p.1 < 0
      · exact Or.inr (Or.inl ⟨not_lt.mp h1, h2⟩)
      · by_cases h3 : p.1 < 1 / 2
        · exact Or.inr (Or.inr (Or.inl ⟨not_lt.mp h2, h3⟩))
        · exact Or.inr (Or.inr (Or.inr (not_lt.mp h3)))
  · intro h
    linarith [h.1, h.2]
  · intro h
    linarith [h.1, h.2]
  · intro h
    linarith [h.1, h.2]
  · intro h
    linarith [h.1, h.2]
  · intro h
    linarith [h.1, h.2]
  · intro h
    linarith [h.1, h.2]
  · intro h
    rw [obstacle_value_eq, obstacle_value_eq]
    split_ifs <;> first | (exfalso; linarith) | norm_num

/-- C15 (obstacle far below). On a conforming discretization, for every state
with `u(k) > ψ(x_k)` at every unknown `k`, `projection_active_set` marks no
unknown, leaves `u` as it is and produces the constraint set of the boundary
values alone; the pass of the outer loop that follows such an update
assembles the boundary-only system, which is the reference system, and its
solution is the solve of that system from the start vector `u`. -/
theorem obstacle_far_below (env : Env) (hc : env.Conforming) (st : Step4)
    (h : ∀ k < env.n_dofs, st.solution k > env.obstacle (env.support_point k)) :
    (∀ k, (projection_active_set env st).active_set k = 0)
      ∧ (projection_active_set env st).solution = st.solution
      ∧ (projection_active_set env st).constraints = boundary_constraints env
      ∧ ∀ i : Nat,
          (solve_phase env (update_phase env i st)).system_matrix
              = env.stiffness (boundary_constraints env)
            ∧ (solve_phase env (update_phase env i st)).system_rhs
              = env.load (boundary_constraints env)
            ∧ (solve_phase env (update_phase env i st)).solution
              = (boundary_constraints env).distribute
                  (env.cg (env.stiffness (boundary_constraints env)) st.solution
                    (env.load (boundary_constraints env))) := by
  have hfail : ∀ cell ∈ env.cells, ∀ v < vertices_per_cell,
      ¬ st.solution (cell.vertex_dof_index v) ≤ env.obstacle (cell.vertex v) := by
    intro cell hcell v hv
    obtain ⟨h1, h2⟩ := hc.1 cell hcell v hv
    rw [h1]
    exact not_le.mpr (h _ h2)
  have hp := projection_active_set_none env st hfail
  refine ⟨fun k => by rw [hp], by rw [hp], by rw [hp], fun i => ?_⟩
  obtain ⟨g1, g2, g3, g4⟩ := solve_phase_system env (update_phase env i st)
  obtain ⟨u1, _, u3, _⟩ := update_phase_vectors env i st
  rw [g1, g2, g3, u1, u3, hp]
  exact ⟨rfl, rfl, rfl⟩

theorem obstacle_far_below_witness :
    (grid_env exact_cg).Conforming
      ∧ (∀ k, (projection_active_set (grid_env exact_cg) Step4.init).active_set k = 0)
      ∧ (projection_active_set (grid_env exact_cg) Step4.init).constraints
          = boundary_constraints (grid_env exact_cg) := by
  have h := obstacle_far_below (grid_env exact_cg) (grid_env_conforming _) Step4.init
    (by decide!)
  exact ⟨grid_env_conforming _, h.1, h.2.2.1⟩

/-- C19 (seed pass with the obstacle of the source). Every value of
`Obstacle::value` is at most `-0.2`, so with this obstacle an unknown with
`u(k) ≥ 0` fails the complementarity test whatever `r(k)` is; the seed call
of `projection_active_set` in `run`, on `u = 0` and `r = 0`, marks no unknown,
leaves `u = 0` and yields the constraint set of the boundary values alone: the
seeded active set is empty. -/
theorem seed_marks_nothing (env : Env) (ho : env.obstacle = Obstacle.value) :
    (∀ p, env.obstacle p ≤ -1 / 5)
      ∧ (∀ (st : Step4) (k : Nat), 0 ≤ st.solution k →
          ¬ (st.solution k ≤ env.obstacle (env.support_point k)
              ∧ st.resid_vector k ≥ -(1 / 10 ^ 15)))
      ∧ (∀ k, (seed_entry env).solution k = 0 ∧ (seed_entry env).resid_vector k = 0)
      ∧ (∀ k, (seed env).active_set k = 0)
      ∧ (∀ k, (seed env).solution k = 0)
      ∧ (seed env).constraints = boundary_constraints env := by
  have hneg : ∀ p, env.obstacle p ≤ -1 / 5 := by
    intro p
    rw [ho]
    exact obstacle_value_neg p
  have hp := projection_active_set_none env (seed_entry env) (by
    intro cell _ v _
    have := hneg (cell.vertex v)
    show ¬ (0 : ℚ) ≤ env.obstacle (cell.vertex v)
    linarith)
  refine ⟨hneg, ?_, fun k => ⟨rfl, rfl⟩, ?_, ?_, ?_⟩
  · intro st k hk hh
    have := hneg (env.support_point k)
    linarith [hh.1]
  · intro k
    simp only [seed, hp]
  · intro k
    simp only [seed, hp]
    rfl
  · simp only [seed, hp]

theorem seed_marks_nothing_witness :
    (grid_env exact_cg).obstacle = Obstacle.value
      ∧ (∀ k, (seed (grid_env exact_cg)).active_set k = 0)
      ∧ (seed (grid_env exact_cg)).constraints = boundary_constraints (grid_env exact_cg) :=
  ⟨rfl, (seed_marks_nothing (grid_env exact_cg) rfl).2.2.2.1,
    (seed_marks_nothing (grid_env exact_cg) rfl).2.2.2.2.2⟩

/-- C20 (premature stop under an exact solve). With the obstacle of the
source on a conforming discretization with at least one unknown, if the
solve of pass `0` returns `u` with `A u = b` exactly, then in pass `0` the
assembled system is the reference system, the clamped residual is `0` at
every unknown, and `run` ends after exactly one pass with one solve. The
final update marks exactly the unknowns with `u(k) ≤ ψ(x_k)`, no solve follows
it, and the reported solution is the solve of the reference system from the
zero vector, with the boundary values distributed. -/
theorem premature_stop (env : Env) (hc : env.Conforming) (ho : env.obstacle = Obstacle.value)
    (hn : 0 < env.n_dofs)
    (hexact : ∀ k < env.n_dofs,
      ∑ j in Finset.range env.n_dofs,
          (solve_phase env (seed env)).system_matrix k j * (solve_phase env (seed env)).solution j
        = (solve_phase env (seed env)).system_rhs k) :
    (solve_phase env (seed env)).system_matrix = (seed env).system_matrix_complete
      ∧ (solve_phase env (seed env)).system_rhs = (seed env).system_rhs_complete
      ∧ (∀ k < env.n_dofs, (loop_state env 1).resid_vector k = 0)
      ∧ run env = loop_state env 1
      ∧ (run env).files.length = 1
      ∧ ((run env).cout.filter Line.is_solve).length = 1
      ∧ (∀ k < env.n_dofs,
          (run env).active_set k = 1
            ↔ (run env).tmp_solution k ≤ env.obstacle (env.support_point k))
      ∧ (run env).tmp_solution
          = (boundary_constraints env).distribute
              (env.cg (env.stiffness (boundary_constraints env)) (fun _ => 0)
                (env.load (boundary_constraints env))) := by
  have hneg : ∀ p, env.obstacle p < 0 := by
    intro p
    rw [ho]
    have := obstacle_value_neg p
    linarith
  have hseed := seed_of_negative env hneg
  obtain ⟨g1, g2, g3, _⟩ := solve_phase_system env (seed env)
  obtain ⟨c1, c2⟩ := seed_complete env
  have hcons : (seed env).constraints = boundary_constraints env := by rw [hseed]
  have hsol : (seed env).solution = fun _ => 0 := by
    rw [hseed]
    rfl
  have hA : (solve_phase env (seed env)).system_matrix = (seed env).system_matrix_complete := by
    rw [g1, c1, hcons]
  have hb : (solve_phase env (seed env)).system_rhs = (seed env).system_rhs_complete := by
    rw [g2, c2, hcons]
  obtain ⟨_, v2, _, v4, v5⟩ := loop_state_succ_vectors env 0
  have hres : ∀ k < env.n_dofs, (loop_state env 1).resid_vector k = 0 := by
    intro k hk
    rw [v4]
    show (residual_update env (solve_phase env (seed env))).resid_vector k = 0
    rw [residual_update_entry env _ k hk, (solve_phase_complete env _).1,
      (solve_phase_complete env _).2, ← hA, ← hb, hexact k hk]
    simp
  have hbelow : below_tolerance (l2_norm_sq env.n_dofs (loop_state env 1).resid_vector) := by
    rw [l2_norm_sq_zero _ _ hres]
    exact below_tolerance_zero
  have hrun := run_stops_after_first env hn hbelow
  refine ⟨hA, hb, hres, hrun, ?_, ?_, ?_, ?_⟩
  · rw [hrun, loop_state_files_length]
  · rw [hrun, loop_state_count_solve]
  · intro k hk
    rw [hrun, v2, v5, (projection_active_set_vectors env _).1,
      active_set_scan_iff env hc _ k hk]
    have hr0 : (residual_update env (solve_phase env (loop_state env 0))).resid_vector k = 0 := by
      rw [← v4]
      exact hres k hk
    constructor
    · intro hp
      exact hp.1
    · intro hu
      refine ⟨hu, ?_⟩
      rw [hr0]
      norm_num
  · rw [hrun, v5]
    show (solve_phase env (seed env)).solution = _
    rw [g3, hcons, hsol]

theorem premature_stop_witness :
    (grid_env exact_cg).Conforming
      ∧ run (grid_env exact_cg) = loop_state (grid_env exact_cg) 1
      ∧ (run (grid_env exact_cg)).files.length = 1
      ∧ (run (grid_env exact_cg)).tmp_solution 4 = -15 / 4
      ∧ (run (grid_env exact_cg)).active_set 4 = 1 := by
  have h := premature_stop (grid_env exact_cg) (grid_env_conforming _) rfl (by decide)
    (by decide!)
  refine ⟨grid_env_conforming _, h.2.2.2.1, h.2.2.2.2.1, ?_, ?_⟩
  · rw [h.2.2.2.2.2.2.2]
    decide!
  · exact (h.2.2.2.2.2.2.1 4 (by decide)).2 (by rw [h.2.2.2.2.2.2.2]; decide!)

/-- C11, as amended (fixed reference system). In every pass of the outer
loop the reference system used for the residual is the system assembled once
before the loop under the boundary constraints alone: no pass writes
`system_matrix_complete` or `system_rhs_complete`, also not after a change of
the active set. The system assembled under the constraints of the previous
update is the one that is solved. -/
theorem reference_system_fixed (env : Env) (i : Nat) :
    (loop_state env i).system_matrix_complete = env.stiffness (boundary_constraints env)
      ∧ (loop_state env i).system_rhs_complete = env.load (boundary_constraints env)
      ∧ (solve_phase env (loop_state env i)).system_matrix_complete
          = env.stiffness (boundary_constraints env)
      ∧ (solve_phase env (loop_state env i)).system_rhs_complete
          = env.load (boundary_constraints env)
      ∧ (solve_phase env (loop_state env i)).system_matrix
          = env.stiffness (loop_state env i).constraints
      ∧ (solve_phase env (loop_state env i)).system_rhs
          = env.load (loop_state env i).constraints := by
  obtain ⟨h1, h2⟩ := loop_state_complete env i
  obtain ⟨g1, g2⟩ := solve_phase_complete env (loop_state env i)
  obtain ⟨s1, s2, _⟩ := solve_phase_system env (loop_state env i)
  exact ⟨h1, h2, g1.trans h1, g2.trans h2, s1, s2⟩

/-- C11, counterexample. On the twice refined square with a solver that is
exact except at unknown `12`, the first pass marks unknown `6`, which the seed
had left unmarked, and does not meet the tolerance, so `run` goes on to a
second pass. In that pass the matrix assembled under the constraints of the
first pass has the identity row `1` and right hand side `ψ = -0.4` at unknown
`6`, while the reference system used for the residual still has the
entries `8/3` and `-5/2` of the boundary-only assembly. -/
theorem reference_not_resnapshotted :
    (loop_state (fine_env lagging_cg) 0).active_set 6 = 0
      ∧ (loop_state (fine_env lagging_cg) 1).active_set 6 = 1
      ∧ ¬ below_tolerance
          (l2_norm_sq (fine_env lagging_cg).n_dofs
            (loop_state (fine_env lagging_cg) 1).resid_vector)
      ∧ (∃ m, 1 < m ∧ run (fine_env lagging_cg) = loop_state (fine_env lagging_cg) m)
      ∧ (solve_phase (fine_env lagging_cg)
          (loop_state (fine_env lagging_cg) 1)).system_matrix 6 6 = 1
      ∧ (solve_phase (fine_env lagging_cg)
          (loop_state (fine_env lagging_cg) 1)).system_rhs 6 = -2 / 5
      ∧ (solve_phase (fine_env lagging_cg)
          (loop_state (fine_env lagging_cg) 1)).system_matrix_complete 6 6 = 8 / 3
      ∧ (solve_phase (fine_env lagging_cg)
          (loop_state (fine_env lagging_cg) 1)).system_rhs_complete 6 = -5 / 2 := by
  obtain ⟨hm1, hm2⟩ := fine_first_marks
  obtain ⟨s1, s2, _⟩ := solve_phase_system (fine_env lagging_cg)
    (loop_state (fine_env lagging_cg) 1)
  obtain ⟨g1, g2⟩ := solve_phase_complete (fine_env lagging_cg)
    (loop_state (fine_env lagging_cg) 1)
  obtain ⟨c1, c2⟩ := loop_state_complete (fine_env lagging_cg) 1
  have hbc : (boundary_constraints (fine_env lagging_cg)).lines 6 = none := by
    rw [boundary_constraints_lines]
    decide
  refine ⟨?_, hm1, fine_first_not_below, ?_, ?_, ?_, ?_, ?_⟩
  · rw [loop_state_zero, seed_of_negative _ (fine_negative _)]
  · obtain ⟨m, h1, _, h3⟩ := run_reaches (fine_env lagging_cg) 1 (by decide) (by
      intro p hp0 hp1
      have : p = 1 := by omega
      rw [this]
      exact fine_first_not_below)
    exact ⟨m, h1, h3⟩
  · rw [s1, (fine_env_fields _).1]
    simp [grid_stiffness, ConstraintMatrix.is_constrained, hm2]
  · rw [s2, (fine_env_fields _).2.1]
    simp [fine_load, hm2]
  · rw [g1, c1, (fine_env_fields _).1]
    simp [grid_stiffness, ConstraintMatrix.is_constrained, hbc]
  · rw [g2, c2, (fine_env_fields _).2.1]
    simp [fine_load, hbc]

/-- C12, as amended (what holds of feasibility when the loop stops). On a
conforming discretization with at least one unknown, in the state in which
`run` ends: an unknown that the last update left unmarked and whose residual
entry is at least `-1e-15` has a reported value `u(k) > ψ(x_k)`; an unknown
that the last update marked has a reported value `u(k) ≤ ψ(x_k)`, so a value
below the obstacle stays in the reported solution, and is reset to `0` in the
working vector, which is above the obstacle of the source. -/
theorem feasibility_at_stop (env : Env) (hc : env.Conforming) (hn : 0 < env.n_dofs)
    (k : Nat) (hk : k < env.n_dofs) :
    ((run env).active_set k ≠ 1 → (run env).resid_vector k ≥ -(1 / 10 ^ 15)
        → (run env).tmp_solution k > env.obstacle (env.support_point k)
          ∧ (run env).solution k = (run env).tmp_solution k)
      ∧ ((run env).active_set k = 1
        → (run env).tmp_solution k ≤ env.obstacle (env.support_point k)
          ∧ (run env).solution k = 0)
      ∧ (env.obstacle = Obstacle.value → (run env).active_set k = 1
        → (run env).solution k ≥ env.obstacle (env.support_point k)) := by
  obtain ⟨j, _, hj⟩ := run_is_pass_end env hn
  rw [hj]
  rcases loop_state_succ_cases env hc j k hk with h | h
  · refine ⟨fun hna => absurd h.1 hna, fun _ => ⟨h.2.2.1, h.2.1⟩, fun ho _ => ?_⟩
    rw [h.2.1, ho]
    have := obstacle_value_neg (env.support_point k)
    linarith
  · have h01 : (loop_state env (j + 1)).active_set k ≠ 1 := by
      rw [h.1]
      norm_num
    refine ⟨fun _ hr => ⟨?_, h.2.1⟩, fun ha => absurd ha h01, fun _ ha => absurd ha h01⟩
    by_contra hle
    exact h.2.2 ⟨not_lt.mp hle, hr⟩

theorem feasibility_at_stop_witness :
    (grid_env exact_cg).Conforming ∧ 0 < (grid_env exact_cg).n_dofs
      ∧ (run (grid_env exact_cg)).tmp_solution 4
          ≤ (grid_env exact_cg).obstacle ((grid_env exact_cg).support_point 4)
      ∧ (run (grid_env exact_cg)).solution 4 = 0 := by
  have h := (feasibility_at_stop (grid_env exact_cg) (grid_env_conforming _) (by decide) 4
    (by decide)).2.1 (by decide!)
  exact ⟨grid_env_conforming _, by decide, h.1, h.2⟩

/-- C12, counterexample. On the once refined square the exact solver meets
its contract in the first pass (`A u = b` in every row, constrained entries at
their prescribed values) and `run` stops by the convergence test after that
pass with residual norm `0`; the reported solution is `-15/4` at the interior
unknown `4`, where the obstacle is `-3/5`: the obstacle is violated by more
than `3`. -/
theorem feasibility_violated :
    (∀ k < 9,
        ∑ j in Finset.range 9,
            (solve_phase (grid_env exact_cg) (seed (grid_env exact_cg))).system_matrix k j
              * (solve_phase (grid_env exact_cg) (seed (grid_env exact_cg))).solution j
          = (solve_phase (grid_env exact_cg) (seed (grid_env exact_cg))).system_rhs k)
      ∧ (∀ k < 9, ∀ value,
          (seed (grid_env exact_cg)).constraints.lines k = some value
            → (solve_phase (grid_env exact_cg) (seed (grid_env exact_cg))).solution k = value)
      ∧ run (grid_env exact_cg) = loop_state (grid_env exact_cg) 1
      ∧ below_tolerance (l2_norm_sq 9 (run (grid_env exact_cg)).resid_vector)
      ∧ (run (grid_env exact_cg)).tmp_solution 4 = -15 / 4
      ∧ (grid_env exact_cg).obstacle ((grid_env exact_cg).support_point 4) = -3 / 5
      ∧ (run (grid_env exact_cg)).tmp_solution 4
          < (grid_env exact_cg).obstacle ((grid_env exact_cg).support_point 4) - 3 := by
  have hb : below_tolerance
      (l2_norm_sq (grid_env exact_cg).n_dofs (loop_state (grid_env exact_cg) 1).resid_vector) := by
    decide!
  have hrun := run_stops_after_first (grid_env exact_cg) (by decide) hb
  refine ⟨by decide!, ?_, hrun, by decide!, by decide!, by decide!, by decide!⟩
  intro k hk value hv
  rw [(solve_phase_system _ _).2.2.1]
  simp only [ConstraintMatrix.distribute, hv]
/-- C13, as amended (complementarity for the active set that was solved
with). On a conforming discretization with at least one unknown, `run` ends at
the end of a pass `j`, and in the state in which it ends: every unknown that
the update of pass `j` marked is `0` in the working vector and at or below
`ψ(x_k)` in the reported solution; the reported solution equals `ψ(x_k)` at
every non-boundary unknown that was marked when pass `j` began, which is the
active set the last solve was constrained with. -/
theorem complementarity_at_stop (env : Env) (hc : env.Conforming) (hn : 0 < env.n_dofs) :
    ∃ j, j < env.n_dofs ∧ run env = loop_state env (j + 1)
      ∧ ∀ k < env.n_dofs,
          ((run env).active_set k = 1
            → (run env).solution k = 0
              ∧ (run env).tmp_solution k ≤ env.obstacle (env.support_point k))
          ∧ (k ∉ env.boundary_dofs → (loop_state env j).active_set k = 1
            → (run env).tmp_solution k = env.obstacle (env.support_point k)) := by
  obtain ⟨j, hj1, hj2⟩ := run_is_pass_end env hn
  refine ⟨j, hj1, hj2, fun k hk => ⟨fun ha => ?_, fun hnb ha => ?_⟩⟩
  · rw [hj2] at ha ⊢
    rcases loop_state_succ_cases env hc j k hk with h | h
    · exact ⟨h.2.1, h.2.2.1⟩
    · rw [h.1] at ha
      exact absurd ha (by norm_num)
  · rw [hj2, (loop_state_succ_vectors env j).2.2.2.2, (solve_phase_system env _).2.2.1]
    simp only [ConstraintMatrix.distribute, loop_state_marked_lines env hc j k ha hnb]

theorem complementarity_at_stop_witness :
    (grid_env exact_cg).Conforming ∧ 0 < (grid_env exact_cg).n_dofs
      ∧ ∃ j, j < 9 ∧ run (grid_env exact_cg) = loop_state (grid_env exact_cg) (j + 1) := by
  obtain ⟨j, h1, h2, _⟩ := complementarity_at_stop (grid_env exact_cg)
    (grid_env_conforming _) (by decide)
  exact ⟨grid_env_conforming _, by decide, j, h1, h2⟩

/-- C13, counterexample. On the once refined square with the exact solver,
`run` stops by the convergence test after the first pass; the interior
unknown `4` is marked active at that point, the obstacle value there is
`-3/5`, but the reported solution is `-15/4` and the working vector is `0`
at that unknown. -/
theorem complementarity_violated :
    run (grid_env exact_cg) = loop_state (grid_env exact_cg) 1
      ∧ below_tolerance (l2_norm_sq 9 (run (grid_env exact_cg)).resid_vector)
      ∧ (run (grid_env exact_cg)).active_set 4 = 1
      ∧ (grid_env exact_cg).obstacle ((grid_env exact_cg).support_point 4) = -3 / 5
      ∧ (run (grid_env exact_cg)).tmp_solution 4 = -15 / 4
      ∧ (run (grid_env exact_cg)).solution 4 = 0 := by
  have hb : below_tolerance
      (l2_norm_sq (grid_env exact_cg).n_dofs (loop_state (grid_env exact_cg) 1).resid_vector) := by
    decide!
  exact ⟨run_stops_after_first (grid_env exact_cg) (by decide) hb, by decide!, by decide!,
    by decide!, by decide!, by decide!⟩

/-- C14 (idempotence of the constraint rebuild). On a conforming
discretization, when `projection_active_set` is run twice in succession and the
second run derives the same active set as the first, i.e. the same indicator
at every unknown, then the constraint set, the indicator and the solution
vector after the second run equal those after the first; more generally every
run that derives this active set, from whatever state, yields this constraint
set. -/
theorem rebuild_same_active_set (env : Env) (hc : env.Conforming) (st : Step4)
    (h : ∀ k < env.n_dofs,
      (projection_active_set env (projection_active_set env st)).active_set k
        = (projection_active_set env st).active_set k) :
    (projection_active_set env (projection_active_set env st)).constraints
        = (projection_active_set env st).constraints
      ∧ (projection_active_set env (projection_active_set env st)).active_set
        = (projection_active_set env st).active_set
      ∧ (projection_active_set env (projection_active_set env st)).solution
        = (projection_active_set env st).solution
      ∧ ∀ s : Step4,
          (∀ k < env.n_dofs,
            (projection_active_set env s).active_set k
              = (projection_active_set env st).active_set k)
          → (projection_active_set env s).constraints
              = (projection_active_set env st).constraints := by
  have hall : ∀ s : Step4,
      (∀ k < env.n_dofs,
        (projection_active_set env s).active_set k
          = (projection_active_set env st).active_set k)
      → ∀ k, (active_set_scan env s).active_set k = (active_set_scan env st).active_set k := by
    intro s hs k
    by_cases hk : k < env.n_dofs
    · have := hs k hk
      rw [(projection_active_set_vectors env _).1, (projection_active_set_vectors env _).1]
        at this
      exact this
    · rw [(active_set_scan_outside env hc s k (not_lt.mp hk)).2,
        (active_set_scan_outside env hc st k (not_lt.mp hk)).2]
  have hcons : ∀ s : Step4,
      (∀ k < env.n_dofs,
        (projection_active_set env s).active_set k
          = (projection_active_set env st).active_set k)
      → (projection_active_set env s).constraints
          = (projection_active_set env st).constraints := by
    intro s hs
    apply ConstraintMatrix.eq_of_lines
    intro k
    rw [projection_active_set_lines, projection_active_set_lines env st,
      active_set_scan_lines env hc, active_set_scan_lines env hc st, hall s hs k]
  have ha := hall (projection_active_set env st) h
  refine ⟨hcons _ h, ?_, ?_, hcons⟩
  · funext k
    rw [(projection_active_set_vectors env _).1, (projection_active_set_vectors env st).1]
    exact ha k
  · funext k
    rw [(projection_active_set_vectors env _).2.1, active_set_scan_solution, ha k,
      (projection_active_set_vectors env st).2.1, active_set_scan_solution]
    split <;> rfl

theorem rebuild_same_active_set_witness :
    (with_obstacle (fun _ => 1)).Conforming
      ∧ (projection_active_set (with_obstacle (fun _ => 1)) below_state).active_set 4 = 1
      ∧ (projection_active_set (with_obstacle (fun _ => 1)) below_state).constraints.lines 4
          = some 1
      ∧ (projection_active_set (with_obstacle (fun _ => 1))
          (projection_active_set (with_obstacle (fun _ => 1)) below_state)).constraints
        = (projection_active_set (with_obstacle (fun _ => 1)) below_state).constraints := by
  have h := rebuild_same_active_set (with_obstacle (fun _ => 1)) (with_obstacle_conforming _)
    below_state (by decide!)
  exact ⟨with_obstacle_conforming _, by decide!, by decide!, h.1⟩

/-- C16, as amended (obstacle above). On a conforming discretization with at
least one unknown: if the obstacle is nonnegative at every unknown off the
boundary, the seed update marks each of them with the constraint `ψ(x_k)` and
the first solve returns `u(k) = ψ(x_k)` there. If the obstacle is negative at
every unknown off the boundary, lies above the unconstrained solution at
every unknown, and that solution satisfies the reference system exactly,
then `run` stops after one pass with every unknown marked active, but the
reported solution is the unconstrained one and the working vector is `0`,
not `ψ(x_k)`. -/
theorem obstacle_above (env : Env) (hc : env.Conforming) (hn : 0 < env.n_dofs) :
    ((∀ k < env.n_dofs, k ∉ env.boundary_dofs → 0 ≤ env.obstacle (env.support_point k))
        → ∀ k < env.n_dofs, k ∉ env.boundary_dofs →
            (seed env).active_set k = 1
              ∧ (seed env).constraints.lines k = some (env.obstacle (env.support_point k))
              ∧ (loop_state env 1).tmp_solution k = env.obstacle (env.support_point k))
      ∧ ((∀ k < env.n_dofs, k ∉ env.boundary_dofs → env.obstacle (env.support_point k) < 0)
        → (∀ k < env.n_dofs,
            ∑ j in Finset.range env.n_dofs,
                env.stiffness (boundary_constraints env) k j * unconstrained_solution env j
              = env.load (boundary_constraints env) k)
        → (∀ k < env.n_dofs,
            unconstrained_solution env k ≤ env.obstacle (env.support_point k))
        → run env = loop_state env 1
          ∧ ∀ k < env.n_dofs,
              (run env).active_set k = 1
                ∧ (run env).tmp_solution k = unconstrained_solution env k
                ∧ (run env).solution k = 0) := by
  constructor
  · intro hpos k hk hnb
    have hp : passes env (seed_entry env) k :=
      ⟨hpos k hk hnb, by show (0 : ℚ) ≥ -(1 / 10 ^ 15); norm_num⟩
    have ha : (seed env).active_set k = 1 := by
      show (projection_active_set env (seed_entry env)).active_set k = 1
      rw [(projection_active_set_vectors env _).1]
      exact (active_set_scan_marks env hc _ k hk hp).2.1
    have hl := loop_state_marked_lines env hc 0 k ha hnb
    refine ⟨ha, hl, ?_⟩
    rw [(loop_state_succ_vectors env 0).2.2.2.2, (solve_phase_system env _).2.2.1]
    simp only [ConstraintMatrix.distribute, hl]
  · intro hneg hexact habove
    have hcons := seed_constraints_of_negative env hc hneg
    have hsol := first_solve_unconstrained env hcons
    have hres := first_residual_zero env (by rw [hsol]; exact hexact)
    have hbelow : below_tolerance (l2_norm_sq env.n_dofs (loop_state env 1).resid_vector) := by
      rw [l2_norm_sq_zero _ _ hres]
      exact below_tolerance_zero
    have hrun := run_stops_after_first env hn hbelow
    refine ⟨hrun, fun k hk => ?_⟩
    have htmp : (loop_state env 1).tmp_solution k = unconstrained_solution env k := by
      rw [(loop_state_succ_vectors env 0).2.2.2.2, loop_state_zero, hsol]
    rw [hrun]
    rcases loop_state_succ_cases env hc 0 k hk with h | h
    · exact ⟨h.1, htmp, h.2.1⟩
    · exfalso
      apply h.2.2
      rw [htmp, hres k hk]
      exact ⟨habove k hk, by norm_num⟩

theorem obstacle_above_witness :
    (with_obstacle bowl_obstacle).Conforming
      ∧ run (with_obstacle bowl_obstacle)
          = loop_state (with_obstacle bowl_obstacle) 1
      ∧ (loop_state (with_obstacle (fun _ => 1)) 1).tmp_solution 4 = 1 := by
  refine ⟨with_obstacle_conforming _, ?_, ?_⟩
  · exact ((obstacle_above (with_obstacle bowl_obstacle)
      (with_obstacle_conforming _) (by decide)).2 (by decide!) (by decide!) (by decide!)).1
  · exact ((obstacle_above (with_obstacle (fun _ => 1))
      (with_obstacle_conforming _) (by decide)).1 (by decide!) 4 (by decide) (by decide)).2.2

/-- C16, counterexample. On the once refined square with the exact solver and
the obstacle `ψ(x, y) = x² + y² - 1`, the obstacle lies above the
unconstrained solution at every unknown (`-1 ≥ -15/4` at the interior unknown
`4`, `ψ ≥ 0` on the boundary); `run` stops by the convergence test after one
pass with unknown `4` marked active, but there the reported solution is
`-15/4` and the working vector is `0`, not `ψ = -1`. -/
theorem obstacle_above_violated :
    (∀ k < 9, unconstrained_solution (with_obstacle bowl_obstacle) k
        ≤ bowl_obstacle (grid_point k))
      ∧ run (with_obstacle bowl_obstacle)
          = loop_state (with_obstacle bowl_obstacle) 1
      ∧ below_tolerance
          (l2_norm_sq 9 (run (with_obstacle bowl_obstacle)).resid_vector)
      ∧ (run (with_obstacle bowl_obstacle)).active_set 4 = 1
      ∧ bowl_obstacle (grid_point 4) = -1
      ∧ (run (with_obstacle bowl_obstacle)).tmp_solution 4 = -15 / 4
      ∧ (run (with_obstacle bowl_obstacle)).solution 4 = 0 := by
  have hb : below_tolerance
      (l2_norm_sq (with_obstacle bowl_obstacle).n_dofs
        (loop_state (with_obstacle bowl_obstacle) 1).resid_vector) := by
    decide!
  exact ⟨by decide!, run_stops_after_first _ (by decide) hb, by decide!, by decide!,
    by decide!, by decide!, by decide!⟩

/-- C18 (monotonic stabilization). On a conforming discretization with fewer
than `2^32` unknowns and an assembly that meets its elimination contract: if
the solve of pass `i` returns `u` with `A u = b` exactly (constrained entries
hold their prescribed values by `distribute`) and the update of pass `i`
derives the same active set as the update before it, then the residual norm at
the end of pass `i` is below `1e-10`; so `run` stops by the convergence test
no later than at the end of pass `i`, without any further pass. -/
theorem stable_active_set_stops (env : Env) (hc : env.Conforming) (he : env.Eliminates)
    (hsize : env.n_dofs < 2 ^ 32) (i : Nat) (hi : i < env.n_dofs)
    (hexact : ∀ k < env.n_dofs,
      ∑ j in Finset.range env.n_dofs,
          (solve_phase env (loop_state env i)).system_matrix k j
            * (solve_phase env (loop_state env i)).solution j
        = (solve_phase env (loop_state env i)).system_rhs k)
    (hsame : ∀ k < env.n_dofs,
      (loop_state env (i + 1)).active_set k = (loop_state env i).active_set k) :
    below_tolerance (l2_norm_sq env.n_dofs (loop_state env (i + 1)).resid_vector)
      ∧ ∃ m, 0 < m ∧ m ≤ i + 1 ∧ run env = loop_state env m
          ∧ below_tolerance (l2_norm_sq env.n_dofs (run env).resid_vector) := by
  have hentry : ∀ k < env.n_dofs,
      (loop_state env (i + 1)).resid_vector k ^ 2 ≤ (1 / 10 ^ 15) ^ 2 := by
    intro k hk
    by_cases hfree : k ∈ env.boundary_dofs ∨ (loop_state env i).constraints.lines k = none
    · rw [pass_residual_zero env hc he i hexact k hk hfree]
      norm_num
    · have hnb : k ∉ env.boundary_dofs := fun h => hfree (Or.inl h)
      have hline : (loop_state env i).constraints.lines k ≠ none := fun h => hfree (Or.inr h)
      have hact : (loop_state env i).active_set k = 1 := by
        by_contra hna
        apply hline
        rw [loop_state_lines env hc, if_neg hnb, if_neg hna]
      have hact1 : (loop_state env (i + 1)).active_set k = 1 := by
        rw [hsame k hk]
        exact hact
      have hle := loop_state_succ_resid_nonpos env i k hk
      have hge : (loop_state env (i + 1)).resid_vector k ≥ -(1 / 10 ^ 15) := by
        rcases loop_state_succ_cases env hc i k hk with h | h
        · exact h.2.2.2
        · rw [h.1] at hact1
          exact absurd hact1 (by norm_num)
      nlinarith
  have hbelow : below_tolerance
      (l2_norm_sq env.n_dofs (loop_state env (i + 1)).resid_vector) :=
    guard_sum_below env.n_dofs hsize _ (l2_norm_sq_le _ _ _ hentry)
  refine ⟨hbelow, ?_⟩
  obtain ⟨m, hm1, hm2, hm3, hm4, hm5⟩ := run_spec env
  have hpos : 0 < m := hm5 (by omega)
  have hle : m ≤ i + 1 := by
    by_contra hgt
    exact hm3 (i + 1) (by omega) (by omega) hbelow
  refine ⟨m, hpos, hle, hm2, ?_⟩
  rw [hm2]
  by_cases hmn : m < env.n_dofs
  · exact (hm4 hmn).2
  · have : m = i + 1 := by omega
    rw [this]
    exact hbelow

theorem stable_active_set_stops_witness :
    (with_obstacle (fun _ => 0)).Conforming ∧ (with_obstacle (fun _ => 0)).Eliminates
      ∧ (seed (with_obstacle (fun _ => 0))).active_set 4 = 1
      ∧ (loop_state (with_obstacle (fun _ => 0)) 1).active_set 4 = 1
      ∧ below_tolerance
          (l2_norm_sq 9 (loop_state (with_obstacle (fun _ => 0)) 1).resid_vector) := by
  have h := stable_active_set_stops (with_obstacle (fun _ => 0)) (with_obstacle_conforming _)
    (grid_eliminates _ rfl rfl) (by decide) 0 (by decide) (by decide!) (by decide!)
  exact ⟨with_obstacle_conforming _, grid_eliminates _ rfl rfl, by decide!, by decide!, h.1⟩

end Step41
